import Mathlib

/-!
Verification development for `build_usgs_station_index.py`.

The Python source is shallowly embedded: strings are `List Char` (wrapped in
`String` at the interface), the regex operations of the source are modelled by
explicit scanning functions with the same leftmost-match / alternation /
backtracking semantics, machine floats are modelled by `PyFloat` (exact decimal
rationals plus infinities and NaN; IEEE-754 rounding of the decimal value is
abstracted), and the network effects of the driver are modelled as function
parameters giving each request's outcome.  Case mapping is modelled on ASCII,
matching the upstream data (USGS station names are ASCII).
-/

/-- Python whitespace characters (`str.strip`, regex `\s`), ASCII range. -/
def isPySpace (c : Char) : Bool :=
  c = ' ' || c = '\t' || c = '\n' || c = '\r' || c = '\x0b' || c = '\x0c'

/-- Regex word characters `\w` = `[A-Za-z0-9_]` (ASCII). -/
def isWordChar (c : Char) : Bool :=
  ('A' ≤ c && c ≤ 'Z') || ('a' ≤ c && c ≤ 'z') || ('0' ≤ c && c ≤ '9') || c = '_'

/-- ASCII uppercase of a character (identity elsewhere); the range test is
`'a' ≤ c ≤ 'z'` by code point. -/
def asciiUpper (c : Char) : Char :=
  if 97 ≤ c.toNat && c.toNat ≤ 122 then Char.ofNat (c.toNat - 32) else c

/-- ASCII lowercase of a character (identity elsewhere); the range test is
`'A' ≤ c ≤ 'Z'` by code point. -/
def asciiLower (c : Char) : Char :=
  if 65 ≤ c.toNat && c.toNat ≤ 90 then Char.ofNat (c.toNat + 32) else c

/-- Case-insensitive character equality (regex `re.IGNORECASE`, ASCII). -/
def ciEq (a b : Char) : Bool := asciiUpper a = asciiUpper b

/-- Case-insensitive "starts with": the first list read as a literal pattern
matches at the head of the second. -/
def ciStarts : List Char → List Char → Bool
  | [], _ => true
  | _ :: _, [] => false
  | a :: as, b :: bs => ciEq a b && ciStarts as bs

/-- Python `str.strip()`: drop leading and trailing whitespace. -/
def pyStrip (l : List Char) : List Char :=
  ((l.dropWhile isPySpace).reverse.dropWhile isPySpace).reverse

/-- `str.strip()` on `String`. -/
def pyStripS (s : String) : String := ⟨pyStrip s.data⟩

/-- Worker for `collapseWs`; the flag records whether the previous character
was whitespace (so a run is replaced by a single space). -/
def collapseWsAux : Bool → List Char → List Char
  | _, [] => []
  | prevSp, c :: rest =>
    if isPySpace c then
      if prevSp then collapseWsAux true rest else ' ' :: collapseWsAux true rest
    else c :: collapseWsAux false rest

/-- `re.sub(r"\s+", " ", s)`: every maximal whitespace run becomes one space. -/
def collapseWs (l : List Char) : List Char := collapseWsAux false l

/-- `\b` on the left of a match position: start of string or a preceding
non-word character (the pattern's first character is always a word char). -/
def boundaryOk : Option Char → Bool
  | none => true
  | some p => !isWordChar p

/-- `\b` on the right of a match: end of string or a following non-word
character (the matched text always ends in a word char). -/
def boundaryAfter : List Char → Bool
  | [] => true
  | c :: _ => !isWordChar c

/-- The relational markers of the primary pattern, in the source's
alternation order: `(AT|NEAR|NR|ABOVE|BELOW)`. -/
def markers : List (List Char) :=
  ["AT".data, "NEAR".data, "NR".data, "ABOVE".data, "BELOW".data]

/-- After a marker literal: `\s+([^,]+)`.  `\s+` is greedy but can backtrack:
if everything after the whitespace run is a comma (or nothing), a run of at
least two whitespace characters gives back its last character to `[^,]+`. -/
def afterMarker (l : List Char) : Option (List Char) :=
  let w := l.takeWhile isPySpace
  let r := l.drop w.length
  if w = [] then none
  else if r ≠ [] && !(r.headD ' ' = ',') then some (r.takeWhile (fun c => c != ','))
  else if 2 ≤ w.length then some (w.drop (w.length - 1))
  else none

/-- Try one marker alternative at the current position: case-insensitive
literal match followed by `\s+([^,]+)`; returns group 2 on success. -/
def matchMarker (m l : List Char) : Option (List Char) :=
  if ciStarts m l then afterMarker (l.drop m.length) else none

/-- Try the alternatives of `(AT|NEAR|NR|ABOVE|BELOW)` in order. -/
def tryMarkers (l : List Char) : Option (List Char) :=
  markers.findSome? (fun m => matchMarker m l)

/-- `re.search(r"\b(AT|NEAR|NR|ABOVE|BELOW)\s+([^,]+)", s, re.IGNORECASE)`:
scan positions left to right, requiring a word boundary before the marker;
returns group 2 of the first match. -/
def findPrimaryAux : Option Char → List Char → Option (List Char)
  | _, [] => none
  | prev, c :: rest =>
    match (if boundaryOk prev then tryMarkers (c :: rest) else none) with
    | some g => some g
    | none => findPrimaryAux (some c) rest

/-- Primary-pattern search from the start of the string. -/
def findPrimary (l : List Char) : Option (List Char) := findPrimaryAux none l

/-- Does `\b w \b \.? $` match exactly the rest of the string `l` (the word
case-insensitively, then optionally a period, then the end)? -/
def matchWordEnd (w l : List Char) : Bool :=
  ciStarts w l && (l.drop w.length = [] || l.drop w.length = ['.'])

/-- `re.sub(rf"\b{w}\b\.?$", "", l)`: remove the leftmost (hence unique)
end-anchored whole-word occurrence of `w` with an optional trailing period. -/
def subWordEndAux (w : List Char) : Option Char → List Char → List Char
  | _, [] => []
  | prev, c :: rest =>
    if boundaryOk prev && matchWordEnd w (c :: rest) then []
    else c :: subWordEndAux w (some c) rest

/-- End-anchored whole-word removal, from the start of the string. -/
def subWordEnd (w l : List Char) : List Char := subWordEndAux w none l

/-- The simple administrative suffix alternatives, in the source's order. -/
def adminWords : List (List Char) :=
  ["CO".data, "COUNTY".data, "RES".data, "RESERVOIR".data, "DAM".data,
   "GATE".data, "DIVERSION".data]

/-- Is the rest of the string `[]` or a single period (`\.?$`)? -/
def restDot (l : List Char) : Bool := l = [] || l = ['.']

/-- `\s*STATION\.?$` against the whole rest of the string (the flexible
whitespace of `GAGING\s*STATION`). -/
def wsThenStation : List Char → Bool
  | [] => false
  | c :: rest =>
    if ciStarts "STATION".data (c :: rest) && restDot ((c :: rest).drop 7) then true
    else if isPySpace c then wsThenStation rest
    else false

/-- Does `(CO|COUNTY|RES|RESERVOIR|DAM|GATE|DIVERSION|GAGING\s*STATION)\b\.?$`
match exactly the rest of the string? -/
def matchAdminEnd (l : List Char) : Bool :=
  adminWords.any (fun w => matchWordEnd w l) ||
    (ciStarts "GAGING".data l && wsThenStation (l.drop 6))

/-- `re.sub` of the administrative-suffix pattern (end-anchored, whole word,
optional trailing period): remove the leftmost match. -/
def subAdminAux : Option Char → List Char → List Char
  | _, [] => []
  | prev, c :: rest =>
    if boundaryOk prev && matchAdminEnd (c :: rest) then []
    else c :: subAdminAux (some c) rest

/-- Administrative-suffix removal, from the start of the string. -/
def subAdmin (l : List Char) : List Char := subAdminAux none l

/-- The hydrological feature words of the rejection pattern, in order. -/
def featureWords : List (List Char) :=
  ["RIVER".data, "CREEK".data, "CRK".data, "FORK".data, "BRANCH".data,
   "BAYOU".data, "CANAL".data, "SLOUGH".data, "BROOK".data, "LAKE".data,
   "WASH".data]

/-- Does the word `w` match at the current position with a right boundary? -/
def matchWordAt (w l : List Char) : Bool :=
  ciStarts w l && boundaryAfter (l.drop w.length)

/-- `re.search(r"\b(RIVER|...|WASH)\b", l, re.IGNORECASE) is not None`. -/
def hasFeatureAux : Option Char → List Char → Bool
  | _, [] => false
  | prev, c :: rest =>
    (boundaryOk prev && featureWords.any (fun w => matchWordAt w (c :: rest))) ||
      hasFeatureAux (some c) rest

/-- Whole-word hydrological-feature search over the whole string. -/
def hasFeature (l : List Char) : Bool := hasFeatureAux none l

/-- The separator class of `title_case_city`: `[\s\-'/\.]`. -/
def isSep (c : Char) : Bool :=
  isPySpace c || c = '-' || c = '\'' || c = '/' || c = '.'

/-- `re.split(r"([\s\-'/\.])", s)`: alternating (possibly empty) non-separator
runs and captured single separator characters. -/
def splitKeepAux : List Char → List Char → List (List Char)
  | acc, [] => [acc.reverse]
  | acc, c :: rest =>
    if isSep c then acc.reverse :: [c] :: splitKeepAux [] rest
    else splitKeepAux (c :: acc) rest

/-- Split keeping the captured separators. -/
def splitKeep (l : List Char) : List (List Char) := splitKeepAux [] l

/-- One part of the split: kept verbatim when empty or starting with a
separator, otherwise the first character is uppercased (the rest is already
lowercase because the whole string was lowered first). -/
def capPart : List Char → List Char
  | [] => []
  | c :: rest => if isSep c then c :: rest else asciiUpper c :: rest

/-- `re.sub(r"\bP1P2\b", R1R2, city)` for a two-character pattern: replace
every non-overlapping whole-word occurrence (case-sensitive). -/
def subDirAux (p1 p2 r1 r2 : Char) : Option Char → List Char → List Char
  | _, [] => []
  | _, [c] => [c]
  | prev, c1 :: c2 :: rest =>
    if boundaryOk prev && c1 = p1 && c2 = p2 && boundaryAfter rest then
      r1 :: r2 :: subDirAux p1 p2 r1 r2 (some p2) rest
    else c1 :: subDirAux p1 p2 r1 r2 (some c1) (c2 :: rest)

/-- Whole-word replacement of a two-character token, from the start. -/
def subDir (p1 p2 r1 r2 : Char) (l : List Char) : List Char :=
  subDirAux p1 p2 r1 r2 none l

/-- `title_case_city` of the source, on character lists: strip, lowercase,
split keeping separators, capitalize each non-separator part, rejoin, fix the
four directional abbreviations back to uppercase, strip. -/
def titleCaseCity (l : List Char) : List Char :=
  let s := pyStrip l
  if s = [] then []
  else
    let city := ((splitKeep (s.map asciiLower)).map capPart).flatten
    let city := subDir 'N' 'w' 'N' 'W' city
    let city := subDir 'N' 'e' 'N' 'E' city
    let city := subDir 'S' 'e' 'S' 'E' city
    let city := subDir 'S' 'w' 'S' 'W' city
    pyStrip city

/-- `title_case_city` at the `String` interface. -/
def title_case_city (s : String) : String := ⟨titleCaseCity s.data⟩

/-- The `STATE_FULL` table of the source. -/
def STATE_FULL : List (String × String) :=
  [("AL", "Alabama"), ("AR", "Arkansas"), ("AZ", "Arizona"), ("CA", "California"),
   ("CO", "Colorado"), ("CT", "Connecticut"), ("DE", "Delaware"), ("FL", "Florida"),
   ("GA", "Georgia"), ("IA", "Iowa"), ("ID", "Idaho"), ("IL", "Illinois"),
   ("IN", "Indiana"), ("KS", "Kansas"), ("KY", "Kentucky"), ("LA", "Louisiana"),
   ("MA", "Massachusetts"), ("MD", "Maryland"), ("ME", "Maine"), ("MI", "Michigan"),
   ("MN", "Minnesota"), ("MO", "Missouri"), ("MS", "Mississippi"), ("MT", "Montana"),
   ("NC", "North Carolina"), ("ND", "North Dakota"), ("NE", "Nebraska"),
   ("NH", "New Hampshire"), ("NJ", "New Jersey"), ("NM", "New Mexico"),
   ("NV", "Nevada"), ("NY", "New York"), ("OH", "Ohio"), ("OK", "Oklahoma"),
   ("OR", "Oregon"), ("PA", "Pennsylvania"), ("RI", "Rhode Island"),
   ("SC", "South Carolina"), ("SD", "South Dakota"), ("TN", "Tennessee"),
   ("TX", "Texas"), ("UT", "Utah"), ("VA", "Virginia"), ("VT", "Vermont"),
   ("WA", "Washington"), ("WI", "Wisconsin"), ("WV", "West Virginia"),
   ("WY", "Wyoming")]

/-- `STATE_FULL.get(state_code, "")`. -/
def stateFullName (st : String) : String := (STATE_FULL.lookup st).getD ""

/-- The candidate clean-up of the primary branch: strip, remove a trailing
state code, a trailing state full name (when known), and a trailing
administrative suffix, re-stripping after each removal. -/
def stripCandidate (sc full g2 : List Char) : List Char :=
  let c1 := pyStrip g2
  let c2 := pyStrip (subWordEnd sc c1)
  let c3 := if full = [] then c2 else pyStrip (subWordEnd full c2)
  pyStrip (subAdmin c3)

/-- `re.search(rf",\s*{state_code}\b", s, re.IGNORECASE)` at one comma: after
the comma, optional whitespace, then the state code, then a right boundary. -/
def commaStateMatch (sc l : List Char) : Bool :=
  let r := l.dropWhile isPySpace
  ciStarts sc r && boundaryAfter (r.drop sc.length)

/-- Scan for the fallback pattern; returns the text before the matched comma
(`s[:m2.start()]`). -/
def findFallbackAux (sc : List Char) : List Char → List Char → Option (List Char)
  | _acc, [] => none
  | acc, c :: rest =>
    if c = ',' && commaStateMatch sc rest then some acc.reverse
    else findFallbackAux sc (c :: acc) rest

/-- Fallback-pattern search from the start of the string. -/
def findFallback (sc l : List Char) : Option (List Char) := findFallbackAux sc [] l

/-- `before.split(",")[-1]`: the segment after the last comma (the whole
string when it has no comma). -/
def lastSegment (l : List Char) : List Char :=
  (l.reverse.takeWhile (fun c => c != ',')).reverse

/-- `parse_city_from_station_name` of the source, on character lists. -/
def parseCityCore (name sc full : List Char) : List Char :=
  if name = [] then []
  else
    let s := collapseWs (pyStrip name)
    match findPrimary s with
    | some g2 =>
      let cand := stripCandidate sc full g2
      if hasFeature cand then [] else titleCaseCity cand
    | none =>
      match findFallback sc s with
      | some before =>
        let cand := pyStrip (lastSegment before)
        if cand ≠ [] && !hasFeature cand then titleCaseCity cand else []
      | none => []

/-- `parse_city_from_station_name` at the `String` interface. -/
def parse_city_from_station_name (name state_code : String) : String :=
  ⟨parseCityCore name.data state_code.data (stateFullName state_code).data⟩

/-- One part of the split, for the spec-side models: a part starting with a
separator is kept, otherwise the first character is capitalized and the rest
of the token is lowercased (the input is not pre-lowered here). -/
def capToken : List Char → List Char
  | [] => []
  | c :: rest => if isSep c then c :: rest else asciiUpper c :: rest.map asciiLower

/-- Is the (already uppercased) pair one of the directional abbreviations? -/
def dirPair (a b : Char) : Bool :=
  (a = 'N' && b = 'W') || (a = 'N' && b = 'E') || (a = 'S' && b = 'E') || (a = 'S' && b = 'W')

/-- Uppercase every two-letter whole-word token that case-insensitively
matches NW, NE, SE or SW (one scan over the string). -/
def subDirCIAux : Option Char → List Char → List Char
  | _, [] => []
  | _, [c] => [c]
  | prev, c1 :: c2 :: rest =>
    if boundaryOk prev && dirPair (asciiUpper c1) (asciiUpper c2) && boundaryAfter rest then
      asciiUpper c1 :: asciiUpper c2 :: subDirCIAux (some c2) rest
    else c1 :: subDirCIAux (some c1) (c2 :: rest)

/-- Title-casing as the spec words it: split keeping separators, capitalize
the first character and lowercase the rest of each non-separator token, then
re-uppercase every resulting two-letter whole-word directional token that
matches NW, NE, SE, SW case-insensitively. -/
def titleCaseSpecCI (l : List Char) : List Char :=
  let s := pyStrip l
  if s = [] then []
  else pyStrip (subDirCIAux none (((splitKeep s).map capToken).flatten))

/-- `titleCaseSpecCI` at the `String` interface. -/
def title_case_spec_ci (s : String) : String := ⟨titleCaseSpecCI s.data⟩

/-- Title-casing as amended: like `titleCaseSpecCI` but only the title-case
forms Nw, Ne, Se, Sw produced by the capitalization step are re-uppercased
(whole-word, case-sensitive), matching the code's four substitutions. -/
def titleCaseAmended (l : List Char) : List Char :=
  let s := pyStrip l
  if s = [] then []
  else
    let city := ((splitKeep s).map capToken).flatten
    let city := subDir 'N' 'w' 'N' 'W' city
    let city := subDir 'N' 'e' 'N' 'E' city
    let city := subDir 'S' 'e' 'S' 'E' city
    let city := subDir 'S' 'w' 'S' 'W' city
    pyStrip city

/-- `titleCaseAmended` at the `String` interface. -/
def title_case_amended (s : String) : String := ⟨titleCaseAmended s.data⟩

/-- The claim's administrative-suffix list (the compound suffix written with
a single interior space, as the pattern's `\s*` most commonly matches it). -/
def adminSuffixL : List (List Char) :=
  ["CO".data, "COUNTY".data, "RES".data, "RESERVOIR".data, "DAM".data,
   "GATE".data, "DIVERSION".data, "GAGING STATION".data]

/-- `parse_city_from_station_name` with an explicit ambient world threaded
through every step: each step of the source touches only its local values
(regex and string operations and the immutable `STATE_FULL` table), so each
step returns the world it was given. -/
def parseCityTracked (σ : Type) (w : σ) (name state_code : String) : String × σ :=
  if name = "" then ("", w)
  else
    let (s, w) := (collapseWs (pyStrip name.data), w)
    let (primary, w) := (findPrimary s, w)
    match primary with
    | some g2 =>
      let (cand, w) := (stripCandidate state_code.data (stateFullName state_code).data g2, w)
      let (feat, w) := (hasFeature cand, w)
      if feat then ("", w) else (⟨titleCaseCity cand⟩, w)
    | none =>
      let (fb, w) := (findFallback state_code.data s, w)
      match fb with
      | some before =>
        let (cand, w) := (pyStrip (lastSegment before), w)
        if cand ≠ [] && !hasFeature cand then (⟨titleCaseCity cand⟩, w) else ("", w)
      | none => ("", w)

/-!  ## Python `float()` and the station records  -/

/-- The value of a Python float as far as this development needs it: a finite
value (kept as the exact decimal rational; IEEE-754 rounding of the decimal
literal is abstracted), an infinity, or NaN. -/
inductive PyFloat where
  | num : ℚ → PyFloat
  | inf : PyFloat
  | neginf : PyFloat
  | nan : PyFloat
deriving DecidableEq

/-- Finiteness of a parsed float (`math.isfinite`). -/
def PyFloat.isFinite : PyFloat → Bool
  | num _ => true
  | _ => false

/-- ASCII decimal digit. -/
def isDigitC (c : Char) : Bool := '0' ≤ c && c ≤ '9'

/-- Digit continuation `(('_' digit) | digit)*` of a Python numeric literal:
underscores are legal only between digits.  Returns the digits read (with
underscores dropped) and the unread rest. -/
def digitsTail : List Char → (List Char × List Char)
  | [] => ([], [])
  | c :: rest =>
    if isDigitC c then
      let (ds, r) := digitsTail rest
      (c :: ds, r)
    else if c = '_' then
      match rest with
      | d :: rest2 =>
        if isDigitC d then
          let (ds, r) := digitsTail rest2
          (d :: ds, r)
        else ([], c :: rest)
      | [] => ([], [c])
    else ([], c :: rest)

/-- A digit run `digit (('_' digit) | digit)*`; `none` when the input does
not begin with a digit. -/
def parseDigitsU : List Char → Option (List Char × List Char)
  | [] => none
  | c :: rest =>
    if isDigitC c then
      let (ds, r) := digitsTail rest
      some (c :: ds, r)
    else none

/-- Numeric value of a digit list. -/
def natOfDigits (ds : List Char) : Nat :=
  ds.foldl (fun acc c => 10 * acc + (c.toNat - 48)) 0

/-- The mantissa of a Python float literal: optional integer digits, an
optional point with optional fractional digits, with at least one digit
overall.  Returns (integer digits, fractional digits, rest). -/
def pyFloatMantissa (l : List Char) : Option (List Char × List Char × List Char) :=
  match parseDigitsU l with
  | some (ds, r) =>
    match r with
    | '.' :: r2 =>
      match parseDigitsU r2 with
      | some (fs, r3) => some (ds, fs, r3)
      | none => some (ds, [], r2)
    | _ => some (ds, [], r)
  | none =>
    match l with
    | '.' :: r2 =>
      match parseDigitsU r2 with
      | some (fs, r3) => some ([], fs, r3)
      | none => none
    | _ => none

/-- The optional exponent `([eE][+-]?digits)?`; `none` means a malformed
exponent (an `e` not followed by digits), which fails the whole parse. -/
def pyFloatExp : List Char → Option (Int × List Char)
  | [] => some (0, [])
  | c :: r =>
    if c = 'e' || c = 'E' then
      match (match r with
             | '+' :: t => ((1 : Int), t)
             | '-' :: t => ((-1 : Int), t)
             | _ => ((1 : Int), r)) with
      | (sgn, r2) =>
        match parseDigitsU r2 with
        | some (ds, r3) => some (sgn * (natOfDigits ds : Int), r3)
        | none => none
    else some (0, c :: r)

/-- `float(s)` of Python on a string: strip whitespace, optional sign, then
`inf`/`infinity`/`nan` (case-insensitive) or a decimal literal with optional
exponent; `none` models the `ValueError` raised otherwise. -/
def pyFloatOfChars (l0 : List Char) : Option PyFloat :=
  let l := pyStrip l0
  match (match l with
         | '+' :: t => (false, t)
         | '-' :: t => (true, t)
         | _ => (false, l)) with
  | (neg, l1) =>
    if ciStarts "infinity".data l1 && l1.length = 8 then
      some (if neg then PyFloat.neginf else PyFloat.inf)
    else if ciStarts "inf".data l1 && l1.length = 3 then
      some (if neg then PyFloat.neginf else PyFloat.inf)
    else if ciStarts "nan".data l1 && l1.length = 3 then some PyFloat.nan
    else
      match pyFloatMantissa l1 with
      | none => none
      | some (ds, fs, r) =>
        match pyFloatExp r with
        | none => none
        | some (e, r2) =>
          if r2 = [] then
            let mag : ℚ :=
              (natOfDigits (ds ++ fs) : ℚ) / (10 : ℚ) ^ fs.length * (10 : ℚ) ^ e
            some (PyFloat.num (if neg then -mag else mag))
          else none

/-- `float(s)` at the `String` interface. -/
def pyFloat (s : String) : Option PyFloat := pyFloatOfChars s.data

/-- A raw tab-delimited row, reduced to the columns `main` reads
(`r.get(col)`: `none` models a missing column). -/
structure RawRow where
  site_no : Option String
  station_nm : Option String
  dec_lat_va : Option String
  dec_long_va : Option String
  county_cd : Option String
deriving DecidableEq

/-- The output entity built by `main` for one accepted row. -/
structure StationRecord where
  site_no : String
  name : String
  state : String
  city : String
  county_name : String
  lat : PyFloat
  lon : PyFloat
deriving DecidableEq

/-- The row-level body of `main`'s inner loop: trim `site_no` and
`station_nm`, parse both coordinates with `float()` (a `ValueError` skips the
row), skip when the trimmed identifier or name is empty, else build the
record, deriving the city and resolving the county name.  `countyLookup`
models `county_by_state.get(st, {}).get(county_cd, "")`. -/
def processRow (st : String) (countyLookup : String → String) (r : RawRow) :
    Option StationRecord :=
  let site_no := pyStripS (r.site_no.getD "")
  let name := pyStripS (r.station_nm.getD "")
  match pyFloat (r.dec_lat_va.getD ""), pyFloat (r.dec_long_va.getD "") with
  | some latf, some lonf =>
    if site_no = "" || name = "" then none
    else
      some ⟨site_no, name, st, parse_city_from_station_name name st,
            countyLookup (r.county_cd.getD ""), latf, lonf⟩
  | _, _ => none

/-- `if site_no not in all_records: all_records[site_no] = rec` on the
insertion-ordered association list that models the Python dict. -/
def addRecord (m : List (String × StationRecord)) (rec : StationRecord) :
    List (String × StationRecord) :=
  if (m.lookup rec.site_no).isSome then m else m ++ [(rec.site_no, rec)]

/-- Process one state's fetched rows into the accumulating map. -/
def processStateRows (st : String) (countyLookup : String → String)
    (rows : List RawRow) (m : List (String × StationRecord)) :
    List (String × StationRecord) :=
  rows.foldl (fun acc r =>
    match processRow st countyLookup r with
    | some rec => addRecord acc rec
    | none => acc) m

/-- The `STATES` list of the source. -/
def STATES : List String :=
  ["AL", "AR", "AZ", "CA", "CO", "CT", "DE", "FL", "GA", "IA", "ID", "IL",
   "IN", "KS", "KY", "LA", "MA", "MD", "ME", "MI", "MN", "MO", "MS", "MT",
   "NC", "ND", "NE", "NH", "NJ", "NM", "NV", "NY", "OH", "OK", "OR", "PA",
   "RI", "SC", "SD", "TN", "TX", "UT", "VA", "VT", "WA", "WI", "WV", "WY"]

/-- The accumulation loop of `main` over all states.  `fetch st = none`
models a `HTTPError`/`URLError` from `fetch_state_rows` (the state is
skipped); `county st cd` models the county-name lookup for that state. -/
def buildAll (fetch : String → Option (List RawRow))
    (county : String → String → String) : List (String × StationRecord) :=
  STATES.foldl (fun m st =>
    match fetch st with
    | none => m
    | some rows => processStateRows st (county st) rows m) []

/-- The records that pass row validation, in processing order (state order,
then row order within a state). -/
def recordStream (fetch : String → Option (List RawRow))
    (county : String → String → String) : List StationRecord :=
  STATES.flatMap (fun st =>
    match fetch st with
    | none => []
    | some rows => rows.filterMap (processRow st (county st)))

/-!  ## The county lookup (`build_county_map`)  -/

/-- A parsed JSON value (`json.loads` output). -/
inductive Jv where
  | null : Jv
  | jbool : Bool → Jv
  | str : String → Jv
  | jnum : ℚ → Jv
  | arr : List Jv → Jv
  | obj : List (String × Jv) → Jv

mutual

/-- Structural equality of JSON values (Python `==` on `json.loads` output). -/
def Jv.beq : Jv → Jv → Bool
  | .null, .null => true
  | .jbool a, .jbool b => a == b
  | .str a, .str b => a == b
  | .jnum a, .jnum b => a == b
  | .arr a, .arr b => Jv.beqList a b
  | .obj a, .obj b => Jv.beqObj a b
  | _, _ => false

/-- Equality of JSON arrays. -/
def Jv.beqList : List Jv → List Jv → Bool
  | [], [] => true
  | a :: as, b :: bs => Jv.beq a b && Jv.beqList as bs
  | _, _ => false

/-- Equality of JSON objects (as ordered pair lists). -/
def Jv.beqObj : List (String × Jv) → List (String × Jv) → Bool
  | [], [] => true
  | a :: as, b :: bs => a.1 == b.1 && Jv.beq a.2 b.2 && Jv.beqObj as bs
  | _, _ => false

end

instance : BEq Jv := ⟨Jv.beq⟩

/-- The exceptions the `try` of `build_county_map` can see; every constructor
is caught alike by `except Exception`. -/
inductive PyErr where
  | attributeError : PyErr
  | typeError : PyErr
  | netOrDecodeError : PyErr
deriving DecidableEq

/-- `j.get(k, d)`: dicts look the key up with a default, anything else
raises `AttributeError`. -/
def jvGetDefault (j : Jv) (k : String) (d : Jv) : Except PyErr Jv :=
  match j with
  | .obj l => .ok ((l.lookup k).getD d)
  | _ => .error .attributeError

/-- `c.get(k)` with no default (`None` when absent). -/
def jvGetOpt (c : Jv) (k : String) : Except PyErr Jv :=
  match c with
  | .obj l => .ok ((l.lookup k).getD .null)
  | _ => .error .attributeError

/-- `for c in x`: lists yield elements, strings yield one-character strings,
dicts yield their keys, everything else raises `TypeError`. -/
def jvIter : Jv → Except PyErr (List Jv)
  | .arr l => .ok l
  | .str s => .ok (s.data.map (fun ch => Jv.str ⟨[ch]⟩))
  | .obj l => .ok (l.map (fun kv => Jv.str kv.1))
  | _ => .error .typeError

/-- Python truthiness of a JSON value. -/
def jvTruthy : Jv → Bool
  | .null => false
  | .jbool b => b
  | .str s => s != ""
  | .jnum q => q != 0
  | .arr l => l != []
  | .obj l => l != []

/-- Dict-comprehension insertion: a repeated key keeps its position but takes
the new value, a new key is appended. -/
def pyDictUpsert (m : List (Jv × Jv)) (k v : Jv) : List (Jv × Jv) :=
  if m.any (fun kv => kv.1 == k) then
    m.map (fun kv => if kv.1 == k then (k, v) else kv)
  else m ++ [(k, v)]

/-- One element of the dict comprehension: read `c.get("value")` and
`c.get("name")` (either may raise), keep the pair when both are truthy. -/
def countyStep (m : List (Jv × Jv)) (c : Jv) : Except PyErr (List (Jv × Jv)) := do
  let v ← jvGetOpt c "value"
  let n ← jvGetOpt c "name"
  if jvTruthy v && jvTruthy n then pure (pyDictUpsert m v n) else pure m

/-- The dict comprehension
`{c.get("value"): c.get("name") for c in codes if c.get("value") and c.get("name")}`. -/
def countyPairs (elems : List Jv) : Except PyErr (List (Jv × Jv)) :=
  elems.foldlM countyStep []

/-- The body of `build_county_map`'s `try` after the fetch: read `codes`
(default empty list), iterate it, run the comprehension. -/
def countyPipeline (j : Jv) : Except PyErr (List (Jv × Jv)) := do
  let codes ← jvGetDefault j "codes" (.arr [])
  let elems ← jvIter codes
  countyPairs elems

/-- `build_county_map`, with the fetch-and-decode outcome as input: any
exception anywhere in the `try` yields the empty mapping. -/
def build_county_map (fetched : Except PyErr Jv) : List (Jv × Jv) :=
  match (do countyPipeline (← fetched) : Except PyErr (List (Jv × Jv))) with
  | .ok m => m
  | .error _ => []

/-!  ## The output serializer  -/

/-- Python string comparison (strict, by code point). -/
def strLt : List Char → List Char → Bool
  | [], [] => false
  | [], _ :: _ => true
  | _ :: _, [] => false
  | a :: as, b :: bs =>
    if a.toNat < b.toNat then true
    else if b.toNat < a.toNat then false
    else strLt as bs

/-- The sort key comparison of `main`: the tuple `(state, name)` compared
lexicographically. -/
def recKeyLe (a b : StationRecord) : Bool :=
  if strLt a.state.data b.state.data then true
  else if strLt b.state.data a.state.data then false
  else !(strLt b.name.data a.name.data)

/-- Stable insertion into a sorted list: the new element goes after every
element that is `≤` it. -/
def insertRec (x : StationRecord) : List StationRecord → List StationRecord
  | [] => [x]
  | y :: ys => if recKeyLe y x then y :: insertRec x ys else x :: y :: ys

/-- `sorted(values, key=lambda x: (x["state"], x["name"]))`: a stable sort by
the key (insertion sort; stability plus sortedness determines the output). -/
def sortRecords (l : List StationRecord) : List StationRecord :=
  l.foldl (fun acc x => insertRec x acc) []

/-- Lowercase hexadecimal digit. -/
def hexDigit : Nat → Char
  | 0 => '0'
  | 1 => '1'
  | 2 => '2'
  | 3 => '3'
  | 4 => '4'
  | 5 => '5'
  | 6 => '6'
  | 7 => '7'
  | 8 => '8'
  | 9 => '9'
  | 10 => 'a'
  | 11 => 'b'
  | 12 => 'c'
  | 13 => 'd'
  | 14 => 'e'
  | 15 => 'f'
  | _ => '0'

/-- `json.dump` escaping of one character with `ensure_ascii=False`: quote,
backslash and the named control escapes, `\u00XX` for other control
characters, everything else (non-ASCII included) literal. -/
def jsonEscapeChar (c : Char) : List Char :=
  if c = '"' then ['\\', '"']
  else if c = '\\' then ['\\', '\\']
  else if c = '\n' then ['\\', 'n']
  else if c = '\t' then ['\\', 't']
  else if c = '\r' then ['\\', 'r']
  else if c = '\x08' then ['\\', 'b']
  else if c = '\x0c' then ['\\', 'f']
  else if c.toNat < 32 then
    ['\\', 'u', '0', '0', hexDigit (c.toNat / 16), hexDigit (c.toNat % 16)]
  else [c]

/-- A JSON string literal. -/
def jsonStringLit (s : String) : List Char :=
  '"' :: ((s.data.map jsonEscapeChar).flatten ++ ['"'])

/-- Join chunks with a separator. -/
def joinSep (sep : List Char) : List (List Char) → List Char
  | [] => []
  | [x] => x
  | x :: y :: rest => x ++ sep ++ joinSep sep (y :: rest)

/-- The fields of a serialized record, in the source's dict-literal order;
string fields carry their JSON literal, the two floats are rendered by the
given number formatter (Python's `repr` of a float, abstracted). -/
def recFields (shw : PyFloat → String) (r : StationRecord) :
    List (String × List Char) :=
  [("site_no", jsonStringLit r.site_no), ("name", jsonStringLit r.name),
   ("state", jsonStringLit r.state), ("city", jsonStringLit r.city),
   ("county_name", jsonStringLit r.county_name),
   ("lat", (shw r.lat).data), ("lon", (shw r.lon).data)]

/-- One record in the minified form: `separators=(",", ":")`. -/
def minObj (shw : PyFloat → String) (r : StationRecord) : List Char :=
  '\x7b' :: (joinSep [','] ((recFields shw r).map
    (fun kv => jsonStringLit kv.1 ++ ':' :: kv.2)) ++ ['\x7d'])

/-- The minified file contents for a record sequence. -/
def minRecords (shw : PyFloat → String) (rs : List StationRecord) : List Char :=
  '[' :: (joinSep [','] (rs.map (minObj shw)) ++ [']'])

/-- One record in the indented form (`indent=2`, array element depth 1). -/
def prettyObj (shw : PyFloat → String) (r : StationRecord) : List Char :=
  "  \x7b\n".data ++ joinSep ",\n".data ((recFields shw r).map
    (fun kv => "    ".data ++ jsonStringLit kv.1 ++ ": ".data ++ kv.2)) ++
    "\n  \x7d".data

/-- The indented file contents for a record sequence. -/
def prettyRecords (shw : PyFloat → String) (rs : List StationRecord) : List Char :=
  match rs with
  | [] => "[]".data
  | _ :: _ => "[\n".data ++ joinSep ",\n".data (rs.map (prettyObj shw)) ++ "\n]".data

/-- The sorted output sequence `out` of `main`, from the deduplication map. -/
def outputSeq (m : List (String × StationRecord)) : List StationRecord :=
  sortRecords (m.map Prod.snd)

/-- The `stations.json` contents (indented form of the sorted sequence). -/
def prettyFile (shw : PyFloat → String) (m : List (String × StationRecord)) :
    List Char :=
  prettyRecords shw (outputSeq m)

/-- The `stations.min.json` contents (minified form of the same sequence). -/
def minFile (shw : PyFloat → String) (m : List (String × StationRecord)) :
    List Char :=
  minRecords shw (outputSeq m)

/-- State of the JSON whitespace stripper: outside any string literal,
inside one, or just after a backslash inside one. -/
inductive SState where
  | out : SState
  | instr : SState
  | esc : SState
deriving DecidableEq

/-- State transition of the stripper on one character. -/
def sstep : SState → Char → SState
  | .out, c => if c = '"' then .instr else .out
  | .instr, c => if c = '\\' then .esc else if c = '"' then .out else .instr
  | .esc, _ => .instr

/-- A character is kept unless it is whitespace outside every string. -/
def skeep : SState → Char → Bool
  | .out, c => !isPySpace c
  | _, _ => true

/-- Remove insignificant whitespace from serialized JSON: drop whitespace
that is outside string literals, keep everything else. -/
def stripWsAux : SState → List Char → List Char
  | _, [] => []
  | st, c :: rest =>
    if skeep st c then c :: stripWsAux (sstep st c) rest
    else stripWsAux (sstep st c) rest

/-- Whitespace stripping from the initial (outside-string) state. -/
def stripJsonWs (l : List Char) : List Char := stripWsAux .out l

/-- Run the stripper state across a chunk. -/
def runS (st : SState) (l : List Char) : SState := l.foldl sstep st

/-- A number formatter is printable in place when its output never contains
whitespace or a double quote (Python float `repr` satisfies this). -/
def numOk (shw : PyFloat → String) : Prop :=
  ∀ x : PyFloat, ∀ c ∈ (shw x).data, isPySpace c = false ∧ c ≠ '"'

/-- A concrete formatter used to instantiate `numOk` hypotheses. -/
def showNumZero : PyFloat → String := fun _ => "0"

/-- The row used to exhibit a non-finite parsed coordinate. -/
def infRow : RawRow := ⟨some "07010000", some "X AT Y", some "inf", some "0.0", none⟩

/-- A small record used to instantiate hypotheses at concrete inputs. -/
def sampleRec : StationRecord := ⟨"1", "N", "MO", "", "", PyFloat.num 0, PyFloat.num 0⟩

/-- A fully valid raw row, used as a witness input. -/
def c4wRow : RawRow := ⟨some "07010000", some "X AT Y", some "38.62", some "-90.1", none⟩

/-- The record `main` builds from `c4wRow` (coordinates as parsed). -/
def c4wRec : StationRecord :=
  ⟨"07010000", "X AT Y", "MO", parse_city_from_station_name "X AT Y" "MO", "",
   (pyFloat "38.62").getD PyFloat.nan, (pyFloat "-90.1").getD PyFloat.nan⟩

/-!  ## Helper lemmas: characters  -/

theorem char_eq_of_toNat (a b : Char) (h : a.toNat = b.toNat) : a = b :=
  Char.ext (UInt32.ext h)

theorem toNat_ofNat_valid (n : Nat) (h : n < 55296) : (Char.ofNat n).toNat = n := by
  have hv : n.isValidChar := Or.inl h
  unfold Char.ofNat
  split
  · rfl
  · contradiction

theorem asciiUpper_asciiLower (c : Char) : asciiUpper (asciiLower c) = asciiUpper c := by
  unfold asciiLower
  split
  case isTrue h =>
    rw [Bool.and_eq_true, decide_eq_true_eq, decide_eq_true_eq] at h
    have h32 : (Char.ofNat (c.toNat + 32)).toNat = c.toNat + 32 :=
      toNat_ofNat_valid _ (by omega)
    unfold asciiUpper
    rw [h32]
    have hcond : (97 ≤ c.toNat + 32 && c.toNat + 32 ≤ 122) = true := by
      rw [Bool.and_eq_true, decide_eq_true_eq, decide_eq_true_eq]; omega
    have hcond2 : (97 ≤ c.toNat && c.toNat ≤ 122) = false := by
      rw [Bool.and_eq_false_iff]
      left
      rw [decide_eq_false_iff_not]
      omega
    rw [if_pos hcond, if_neg (by rw [hcond2]; exact Bool.false_ne_true)]
    have : c.toNat + 32 - 32 = c.toNat := by omega
    rw [this, Char.ofNat_toNat]
  case isFalse h => rfl

theorem asciiLower_eq_iff (c t : Char) (ht : t.toNat < 65) :
    (asciiLower c = t) ↔ (c = t) := by
  unfold asciiLower
  split
  case isTrue h =>
    rw [Bool.and_eq_true, decide_eq_true_eq, decide_eq_true_eq] at h
    constructor
    · intro he
      exfalso
      have := congrArg Char.toNat he
      rw [toNat_ofNat_valid _ (by omega)] at this
      omega
    · intro he
      exfalso
      have := congrArg Char.toNat he
      omega
  case isFalse h => exact Iff.rfl

theorem asciiUpper_eq_iff (c t : Char) (ht : t.toNat < 65) :
    (asciiUpper c = t) ↔ (c = t) := by
  unfold asciiUpper
  split
  case isTrue h =>
    rw [Bool.and_eq_true, decide_eq_true_eq, decide_eq_true_eq] at h
    constructor
    · intro he
      exfalso
      have := congrArg Char.toNat he
      rw [toNat_ofNat_valid _ (by omega)] at this
      omega
    · intro he
      exfalso
      have := congrArg Char.toNat he
      omega
  case isFalse h => exact Iff.rfl

theorem isPySpace_asciiLower (c : Char) : isPySpace (asciiLower c) = isPySpace c := by
  unfold isPySpace
  rw [decide_eq_decide.mpr (asciiLower_eq_iff c ' ' (by decide)),
      decide_eq_decide.mpr (asciiLower_eq_iff c '\t' (by decide)),
      decide_eq_decide.mpr (asciiLower_eq_iff c '\n' (by decide)),
      decide_eq_decide.mpr (asciiLower_eq_iff c '\r' (by decide)),
      decide_eq_decide.mpr (asciiLower_eq_iff c '\x0b' (by decide)),
      decide_eq_decide.mpr (asciiLower_eq_iff c '\x0c' (by decide))]

theorem isSep_asciiLower (c : Char) : isSep (asciiLower c) = isSep c := by
  unfold isSep
  rw [isPySpace_asciiLower,
      decide_eq_decide.mpr (asciiLower_eq_iff c '-' (by decide)),
      decide_eq_decide.mpr (asciiLower_eq_iff c '\'' (by decide)),
      decide_eq_decide.mpr (asciiLower_eq_iff c '/' (by decide)),
      decide_eq_decide.mpr (asciiLower_eq_iff c '.' (by decide))]

theorem asciiLower_of_isSep (c : Char) (h : isSep c = true) : asciiLower c = c := by
  unfold isSep isPySpace at h
  simp only [Bool.or_eq_true, decide_eq_true_eq] at h
  rcases h with (((((((((h | h) | h) | h) | h) | h) | h) | h) | h) | h) <;> subst h <;> decide

/-!  ## Helper lemmas: the title-casing refinement (claim C8)  -/

theorem capPart_map_lower (t : List Char) (ht : ∀ c ∈ t, isSep c = false) :
    capPart (t.map asciiLower) = capToken t := by
  cases t with
  | nil => rfl
  | cons c rest =>
    simp only [List.map_cons, capPart, capToken]
    rw [isSep_asciiLower, ht c (List.mem_cons_self c rest), asciiUpper_asciiLower]
    rfl

theorem capPart_sep (c : Char) (h : isSep c = true) : capPart [asciiLower c] = capToken [c] := by
  simp only [capPart, capToken, isSep_asciiLower, h, if_pos, asciiLower_of_isSep c h]

theorem splitCap_lower_aux (l : List Char) : ∀ (acc : List Char),
    (∀ c ∈ acc, isSep c = false) →
    ((splitKeepAux (acc.map asciiLower) (l.map asciiLower)).map capPart).flatten =
    ((splitKeepAux acc l).map capToken).flatten := by
  induction l with
  | nil =>
    intro acc hacc
    simp only [List.map_nil, splitKeepAux, List.map_cons, List.flatten_cons,
      List.flatten_nil, List.append_nil]
    rw [← List.map_reverse]
    exact capPart_map_lower _ (fun c hc => hacc c (List.mem_reverse.mp hc))
  | cons c rest ih =>
    intro acc hacc
    simp only [List.map_cons, splitKeepAux, isSep_asciiLower]
    by_cases h : isSep c = true
    · simp only [h, if_true, List.map_cons, List.flatten_cons]
      have h0 := ih [] (by intro x hx; cases hx)
      simp only [List.map_nil] at h0
      rw [← List.map_reverse, capPart_map_lower _ (fun x hx => hacc x (List.mem_reverse.mp hx)),
          capPart_sep c h, h0]
    · simp only [h, if_false, Bool.false_eq_true]
      have : asciiLower c :: acc.map asciiLower = (c :: acc).map asciiLower := rfl
      rw [this, ih (c :: acc) ?_]
      intro x hx
      rcases List.mem_cons.mp hx with hx | hx
      · subst hx; exact Bool.not_eq_true _ ▸ (by simpa using h)
      · exact hacc x hx

theorem titleCase_amended_eq (l : List Char) : titleCaseCity l = titleCaseAmended l := by
  unfold titleCaseCity titleCaseAmended
  by_cases h : pyStrip l = []
  · rw [if_pos h, if_pos h]
  · rw [if_neg h, if_neg h]
    have h0 := splitCap_lower_aux (pyStrip l) [] (by intro x hx; cases hx)
    simp only [List.map_nil] at h0
    unfold splitKeep
    rw [h0]

/-!  ## Claim theorems  -/

/-- C1: on the name "MISSISSIPPI RIVER AT ST LOUIS, MO" with state code "MO",
the primary pattern matches at the standalone AT with group 2 = "ST LOUIS"
(the text up to the comma), the clean-up strips nothing, no hydrological
feature word occurs in the candidate, and title-casing yields "St Louis"; the
extractor returns exactly "St Louis". -/
theorem claim1_st_louis :
    findPrimary (collapseWs (pyStrip "MISSISSIPPI RIVER AT ST LOUIS, MO".data)) =
      some "ST LOUIS".data ∧
    stripCandidate "MO".data (stateFullName "MO").data "ST LOUIS".data = "ST LOUIS".data ∧
    hasFeature "ST LOUIS".data = false ∧
    parse_city_from_station_name "MISSISSIPPI RIVER AT ST LOUIS, MO" "MO" = "St Louis" :=
  ⟨by decide, by decide, by decide, by decide⟩

/-- C3: the extractor is pure and deterministic: with the ambient world
threaded through every step, the resulting city depends only on the name and
state-code arguments (not on the world, nor even on the world's type), the
world is returned unchanged, and the result coincides with the plain
function. -/
theorem claim3_pure (σ σ' : Type) (w : σ) (w' : σ') (name state_code : String) :
    (parseCityTracked σ w name state_code).1 = (parseCityTracked σ' w' name state_code).1 ∧
    (parseCityTracked σ w name state_code).2 = w ∧
    (parseCityTracked σ w name state_code).1 = parse_city_from_station_name name state_code := by
  have key : ∀ (τ : Type) (v : τ),
      parseCityTracked τ v name state_code = (parse_city_from_station_name name state_code, v) := by
    intro τ v
    unfold parseCityTracked parse_city_from_station_name parseCityCore
    by_cases h : name = ""
    · subst h; rfl
    · have hd : ¬ name.data = [] := by
        intro hc
        exact h (by cases name with | mk l => simp at hc; simp [hc])
      rw [if_neg h, if_neg hd]
      cases hfp : findPrimary (collapseWs (pyStrip name.data)) with
      | some g2 =>
        simp only [hfp]
        by_cases hf : hasFeature (stripCandidate state_code.data (stateFullName state_code).data g2) = true
        · simp [hf]
        · simp [hf]
      | none =>
        simp only [hfp]
        cases hfb : findFallback state_code.data (collapseWs (pyStrip name.data)) with
        | some before =>
          simp only [hfb]
          by_cases hc : ¬pyStrip (lastSegment before) = [] ∧
              hasFeature (pyStrip (lastSegment before)) = false
          · simp [hc]
          · simp [hc]
        | none => simp only [hfb]
  exact ⟨by rw [key σ w, key σ' w'], by rw [key σ w], by rw [key σ w]⟩

/-!  ## Helper lemmas: character provenance (claims C2, C9)  -/

theorem mem_pyStrip (x : Char) (l : List Char) (h : x ∈ pyStrip l) : x ∈ l := by
  unfold pyStrip at h
  rw [List.mem_reverse] at h
  have h1 : x ∈ (l.dropWhile isPySpace).reverse :=
    List.Sublist.mem h (List.dropWhile_sublist _)
  rw [List.mem_reverse] at h1
  exact List.Sublist.mem h1 (List.dropWhile_sublist _)

theorem mem_subWordEndAux (w : List Char) (x : Char) :
    ∀ (l : List Char) (prev : Option Char), x ∈ subWordEndAux w prev l → x ∈ l := by
  intro l
  induction l with
  | nil => intro prev h; simp [subWordEndAux] at h
  | cons c rest ih =>
    intro prev h
    unfold subWordEndAux at h
    split at h
    · cases h
    · rcases List.mem_cons.mp h with h | h
      · exact h ▸ List.mem_cons_self c rest
      · exact List.mem_cons_of_mem _ (ih _ h)

theorem mem_subAdminAux (x : Char) :
    ∀ (l : List Char) (prev : Option Char), x ∈ subAdminAux prev l → x ∈ l := by
  intro l
  induction l with
  | nil => intro prev h; simp [subAdminAux] at h
  | cons c rest ih =>
    intro prev h
    unfold subAdminAux at h
    split at h
    · cases h
    · rcases List.mem_cons.mp h with h | h
      · exact h ▸ List.mem_cons_self c rest
      · exact List.mem_cons_of_mem _ (ih _ h)

theorem afterMarker_no_comma (l g : List Char) (h : afterMarker l = some g) :
    ∀ x ∈ g, x ≠ ',' := by
  simp only [afterMarker] at h
  split at h
  · cases h
  · split at h
    · rw [Option.some_inj] at h
      subst h
      intro x hx
      have := List.mem_takeWhile_imp hx
      simpa using this
    · split at h
      · rw [Option.some_inj] at h
        subst h
        intro x hx
        have hxw : x ∈ l.takeWhile isPySpace :=
          List.Sublist.mem hx (List.drop_sublist _ _)
        have hsp := List.mem_takeWhile_imp hxw
        intro he
        rw [he] at hsp
        exact absurd hsp (by decide)
      · cases h

theorem matchMarker_no_comma (m l g : List Char) (h : matchMarker m l = some g) :
    ∀ x ∈ g, x ≠ ',' := by
  unfold matchMarker at h
  split at h
  · exact afterMarker_no_comma _ _ h
  · cases h

theorem findSome?_some_mem {α β : Type} (f : α → Option β) (ms : List α) (g : β)
    (h : ms.findSome? f = some g) : ∃ m ∈ ms, f m = some g := by
  induction ms with
  | nil => cases h
  | cons a as ih =>
    rw [List.findSome?_cons] at h
    cases hf : f a with
    | some b =>
      rw [hf] at h
      exact ⟨a, List.mem_cons_self a as, by rw [hf]; exact h⟩
    | none =>
      rw [hf] at h
      rcases ih h with ⟨m, hm, hfm⟩
      exact ⟨m, List.mem_cons_of_mem _ hm, hfm⟩

theorem findPrimaryAux_no_comma (g : List Char) :
    ∀ (l : List Char) (prev : Option Char), findPrimaryAux prev l = some g →
    ∀ x ∈ g, x ≠ ',' := by
  intro l
  induction l with
  | nil => intro prev h; cases h
  | cons c rest ih =>
    intro prev h
    unfold findPrimaryAux at h
    cases hm : (if boundaryOk prev then tryMarkers (c :: rest) else none) with
    | some g2 =>
      rw [hm] at h
      rw [Option.some_inj] at h
      subst h
      split at hm
      · rcases findSome?_some_mem _ _ _ hm with ⟨m, _, hmm⟩
        exact matchMarker_no_comma m _ _ hmm
      · cases hm
    | none =>
      rw [hm] at h
      exact ih _ h

theorem mem_stripCandidate (sc full g2 : List Char) (x : Char)
    (h : x ∈ stripCandidate sc full g2) : x ∈ g2 := by
  simp only [stripCandidate, subWordEnd, subAdmin] at h
  have h3 := mem_subAdminAux x _ _ (mem_pyStrip x _ h)
  by_cases hf : full = []
  · rw [if_pos hf] at h3
    exact mem_pyStrip x _ (mem_subWordEndAux sc x _ _ (mem_pyStrip x _ h3))
  · rw [if_neg hf] at h3
    have h2 := mem_subWordEndAux full x _ _ (mem_pyStrip x _ h3)
    exact mem_pyStrip x _ (mem_subWordEndAux sc x _ _ (mem_pyStrip x _ h2))

theorem mem_lastSegment (x : Char) (l : List Char) (h : x ∈ lastSegment l) : x ≠ ',' := by
  unfold lastSegment at h
  rw [List.mem_reverse] at h
  have := List.mem_takeWhile_imp h
  simpa using this

theorem mem_splitKeepAux (p : List Char) (x : Char) :
    ∀ (l acc : List Char), p ∈ splitKeepAux acc l → x ∈ p → x ∈ acc ∨ x ∈ l := by
  intro l
  induction l with
  | nil =>
    intro acc hp hx
    simp only [splitKeepAux, List.mem_singleton] at hp
    subst hp
    exact Or.inl (List.mem_reverse.mp hx)
  | cons c rest ih =>
    intro acc hp hx
    unfold splitKeepAux at hp
    split at hp
    · rcases List.mem_cons.mp hp with hp | hp
      · subst hp
        exact Or.inl (List.mem_reverse.mp hx)
      · rcases List.mem_cons.mp hp with hp | hp
        · subst hp
          rcases List.mem_singleton.mp hx with hx
          exact Or.inr (hx ▸ List.mem_cons_self c rest)
        · rcases ih [] hp hx with h | h
          · cases h
          · exact Or.inr (List.mem_cons_of_mem _ h)
    · rcases ih (c :: acc) hp hx with h | h
      · rcases List.mem_cons.mp h with h | h
        · exact Or.inr (h ▸ List.mem_cons_self c rest)
        · exact Or.inl h
      · exact Or.inr (List.mem_cons_of_mem _ h)

theorem mem_capPart (x : Char) (p : List Char) (h : x ∈ capPart p) :
    x ∈ p ∨ ∃ y ∈ p, x = asciiUpper y := by
  cases p with
  | nil => cases h
  | cons c rest =>
    simp only [capPart] at h
    split at h
    · exact Or.inl h
    · rcases List.mem_cons.mp h with h | h
      · exact Or.inr ⟨c, List.mem_cons_self c rest, h⟩
      · exact Or.inl (List.mem_cons_of_mem _ h)

theorem mem_subDirAux_bounded (p1 p2 r1 r2 x : Char) :
    ∀ (n : Nat) (l : List Char) (prev : Option Char), l.length ≤ n →
    x ∈ subDirAux p1 p2 r1 r2 prev l → x ∈ l ∨ x = r1 ∨ x = r2 := by
  intro n
  induction n with
  | zero =>
    intro l prev hl h
    cases l with
    | nil => cases h
    | cons c rest => simp at hl
  | succ n ih =>
    intro l prev hl h
    cases l with
    | nil => cases h
    | cons c1 t =>
      cases t with
      | nil => exact Or.inl h
      | cons c2 rest =>
        unfold subDirAux at h
        split at h
        · rcases List.mem_cons.mp h with h | h
          · exact Or.inr (Or.inl h)
          · rcases List.mem_cons.mp h with h | h
            · exact Or.inr (Or.inr h)
            · rcases ih rest _ (by simp at hl ⊢; omega) h with h | h
              · exact Or.inl (List.mem_cons_of_mem _ (List.mem_cons_of_mem _ h))
              · exact Or.inr h
        · rcases List.mem_cons.mp h with h | h
          · exact Or.inl (h ▸ List.mem_cons_self c1 _)
          · rcases ih (c2 :: rest) _ (by simp at hl ⊢; omega) h with h | h
            · exact Or.inl (List.mem_cons_of_mem _ h)
            · exact Or.inr h

theorem mem_subDirAux (p1 p2 r1 r2 x : Char) (l : List Char) (prev : Option Char)
    (h : x ∈ subDirAux p1 p2 r1 r2 prev l) : x ∈ l ∨ x = r1 ∨ x = r2 :=
  mem_subDirAux_bounded p1 p2 r1 r2 x l.length l prev (Nat.le_refl _) h

theorem titleCase_flatten_no_comma (m : List Char) (hm : ∀ y ∈ m, y ≠ ',') :
    ∀ x ∈ ((splitKeep (m.map asciiLower)).map capPart).flatten, x ≠ ',' := by
  intro x hx
  rw [List.mem_flatten] at hx
  rcases hx with ⟨q, hq, hxq⟩
  rcases List.mem_map.mp hq with ⟨p, hp, rfl⟩
  unfold splitKeep at hp
  rcases mem_capPart x p hxq with hxp | ⟨y, hyp, rfl⟩
  · rcases mem_splitKeepAux p x _ [] hp hxp with h0 | h0
    · cases h0
    · rcases List.mem_map.mp h0 with ⟨y0, hy0, rfl⟩
      intro hc
      exact hm y0 hy0 ((asciiLower_eq_iff y0 ',' (by decide)).mp hc)
  · rcases mem_splitKeepAux p y _ [] hp hyp with h0 | h0
    · cases h0
    · rcases List.mem_map.mp h0 with ⟨y0, hy0, rfl⟩
      intro hc
      rw [asciiUpper_asciiLower] at hc
      exact hm y0 hy0 ((asciiUpper_eq_iff y0 ',' (by decide)).mp hc)

theorem subDir_no_comma (p1 p2 r1 r2 : Char) (hr1 : r1 ≠ ',') (hr2 : r2 ≠ ',')
    (l : List Char) (hl : ∀ x ∈ l, x ≠ ',') : ∀ x ∈ subDir p1 p2 r1 r2 l, x ≠ ',' := by
  intro x hx
  unfold subDir at hx
  rcases mem_subDirAux p1 p2 r1 r2 x l none hx with h | h | h
  · exact hl x h
  · exact h ▸ hr1
  · exact h ▸ hr2

theorem titleCaseCity_no_comma (l : List Char) (hl : ∀ x ∈ l, x ≠ ',') :
    ∀ x ∈ titleCaseCity l, x ≠ ',' := by
  unfold titleCaseCity
  by_cases h : pyStrip l = []
  · rw [if_pos h]
    intro x hx
    cases hx
  · rw [if_neg h]
    intro x hx
    have h0 : ∀ y ∈ pyStrip l, y ≠ ',' := fun y hy => hl y (mem_pyStrip y l hy)
    have h1 := titleCase_flatten_no_comma (pyStrip l) h0
    have h2 := subDir_no_comma 'N' 'w' 'N' 'W' (by decide) (by decide) _ h1
    have h3 := subDir_no_comma 'N' 'e' 'N' 'E' (by decide) (by decide) _ h2
    have h4 := subDir_no_comma 'S' 'e' 'S' 'E' (by decide) (by decide) _ h3
    have h5 := subDir_no_comma 'S' 'w' 'S' 'W' (by decide) (by decide) _ h4
    exact h5 x (mem_pyStrip x _ hx)

/-- C8 counterexample: the claim says every two-letter whole-word token that
case-insensitively matches NW/NE/SE/SW is re-uppercased; on "x,se" the token
"se" (whole word after the comma, which is not a split separator and so is
not capitalized) case-insensitively matches SE, yet the code leaves it as
"se": the code returns "X,se" while the claim's reading demands "X,SE". -/
theorem claim8_counterexample :
    title_case_city "x,se" = "X,se" ∧ title_case_spec_ci "x,se" = "X,SE" ∧
    title_case_city "x,se" ≠ title_case_spec_ci "x,se" :=
  ⟨by decide, by decide, by decide⟩

/-- C8 amended: `title_case_city` splits its input on whitespace, hyphen,
apostrophe, slash and period (keeping separators), capitalizes the first
character and lowercases the rest of each non-separator token, then
re-uppercases the title-case forms Nw, Ne, Se, Sw as whole words (a
directional word that is not in title-case form after capitalization — such
as "se" after a comma — is left alone); in particular "nw portland" yields
"NW Portland". -/
theorem claim8_amended :
    (∀ s : String, title_case_city s = title_case_amended s) ∧
    title_case_city "nw portland" = "NW Portland" :=
  ⟨fun s => congrArg String.mk (titleCase_amended_eq s.data), by decide⟩

/-- C2: for every station name and state code, when the primary pattern
matches (yielding group 2) and the candidate, after stripping the trailing
state code, state full name and administrative suffix, still contains a
whole-word hydrological feature term, the extractor returns the empty
string. -/
theorem claim2_feature_reject (name state_code : String) (g2 : List Char)
    (h1 : findPrimary (collapseWs (pyStrip name.data)) = some g2)
    (h2 : hasFeature (stripCandidate state_code.data (stateFullName state_code).data g2) = true) :
    parse_city_from_station_name name state_code = "" := by
  unfold parse_city_from_station_name parseCityCore
  have hd : ¬ name.data = [] := by
    intro hc
    rw [hc] at h1
    have h0 : findPrimary (collapseWs (pyStrip ([] : List Char))) = none := rfl
    rw [h0] at h1
    cases h1
  rw [if_neg hd]
  simp only [h1, h2]
  rfl

/-- C2 witness: the BUFFALO CREEK example of the spec, instantiating the
theorem at a concrete input. -/
theorem claim2_feature_reject_witness :
    parse_city_from_station_name "SOMETHING NEAR BUFFALO CREEK" "NY" = "" :=
  claim2_feature_reject "SOMETHING NEAR BUFFALO CREEK" "NY" "BUFFALO CREEK".data
    (by decide) (by decide)

theorem ciStarts_space (w : List Char) : ∀ l, ciStarts w l = true → ' ' ∈ l →
    (∃ c ∈ w, ciEq c ' ' = true) ∨ ' ' ∈ l.drop w.length := by
  induction w with
  | nil =>
    intro l _ hl
    right
    simpa using hl
  | cons a as ih =>
    intro l h hl
    cases l with
    | nil => cases hl
    | cons b bs =>
      rw [ciStarts, Bool.and_eq_true] at h
      rcases List.mem_cons.mp hl with hb | hb
      · left
        refine ⟨a, List.mem_cons_self a as, ?_⟩
        rw [← hb] at h
        exact h.1
      · rcases ih bs h.2 hb with h1 | h1
        · rcases h1 with ⟨c, hc, hcc⟩
          exact Or.inl ⟨c, List.mem_cons_of_mem _ hc, hcc⟩
        · right
          simpa using h1

theorem ciStarts_prefix_space (w : List Char) : ∀ (Y rest : List Char),
    ciStarts w (Y ++ ' ' :: rest) = true → Y.length < w.length →
    ∃ c ∈ w, ciEq c ' ' = true := by
  induction w with
  | nil =>
    intro Y rest _ hlen
    exact absurd hlen (Nat.not_lt_zero _)
  | cons a as ih =>
    intro Y rest h hlen
    cases Y with
    | nil =>
      rw [List.nil_append, ciStarts, Bool.and_eq_true] at h
      exact ⟨a, List.mem_cons_self a as, h.1⟩
    | cons y Y' =>
      rw [List.cons_append, ciStarts, Bool.and_eq_true] at h
      rcases ih Y' rest h.2 (by simp at hlen ⊢; omega) with ⟨c, hc, hcc⟩
      exact ⟨c, List.mem_cons_of_mem _ hc, hcc⟩

theorem restDot_space_false (r : List Char) (hr : ' ' ∈ r) : restDot r = false := by
  unfold restDot
  cases r with
  | nil => cases hr
  | cons d ds =>
    by_cases he : d :: ds = ['.']
    · rw [he] at hr
      rcases List.mem_singleton.mp hr with h0
      cases h0
    · simp [he]

theorem matchWordEnd_space_false (w l : List Char) (hw : ∀ c ∈ w, ciEq c ' ' = false)
    (hl : ' ' ∈ l) : matchWordEnd w l = false := by
  unfold matchWordEnd
  cases hcs : ciStarts w l with
  | false => rw [Bool.false_and]
  | true =>
    rw [Bool.true_and]
    rcases ciStarts_space w l hcs hl with ⟨c, hc, hcc⟩ | hd
    · rw [hw c hc] at hcc
      cases hcc
    · exact restDot_space_false _ hd

theorem wsThenStation_trailing (w2 : List Char) (hbase : wsThenStation w2 = false) :
    ∀ Y : List Char, wsThenStation (Y ++ ' ' :: w2) = false := by
  intro Y
  induction Y with
  | nil =>
    rw [List.nil_append]
    unfold wsThenStation
    have hcond : (ciStarts "STATION".data (' ' :: w2) &&
        restDot ((' ' :: w2).drop 7)) = false := by
      have := matchWordEnd_space_false "STATION".data (' ' :: w2) (by decide)
        (List.mem_cons_self _ _)
      exact this
    simp only [hcond, Bool.false_eq_true, if_false]
    rw [if_pos (by decide : isPySpace ' ' = true)]
    exact hbase
  | cons c Y' ih =>
    rw [List.cons_append]
    unfold wsThenStation
    have hsp : ' ' ∈ c :: (Y' ++ ' ' :: w2) :=
      List.mem_cons_of_mem _ (List.mem_append_right _ (List.mem_cons_self _ _))
    have hcond : (ciStarts "STATION".data (c :: (Y' ++ ' ' :: w2)) &&
        restDot ((c :: (Y' ++ ' ' :: w2)).drop 7)) = false :=
      matchWordEnd_space_false "STATION".data _ (by decide) hsp
    simp only [hcond, Bool.false_eq_true, if_false]
    by_cases hc : isPySpace c = true
    · rw [if_pos hc]
      exact ih
    · rw [if_neg hc]

theorem matchAdminEnd_trailing (Y w2 : List Char) (hw2 : w2 ∈ adminSuffixL) :
    matchAdminEnd (Y ++ ' ' :: w2) = false := by
  unfold matchAdminEnd
  have hsp : ' ' ∈ Y ++ ' ' :: w2 := List.mem_append_right _ (List.mem_cons_self _ _)
  have h1 : adminWords.any (fun w => matchWordEnd w (Y ++ ' ' :: w2)) = false := by
    rw [List.any_eq_false]
    intro w hw
    have hcw : ∀ c ∈ w, ciEq c ' ' = false := by
      have hall : ∀ w ∈ adminWords, ∀ c ∈ w, ciEq c ' ' = false := by decide
      exact hall w hw
    simp [matchWordEnd_space_false w _ hcw hsp]
  have h2 : (ciStarts "GAGING".data (Y ++ ' ' :: w2) &&
      wsThenStation ((Y ++ ' ' :: w2).drop 6)) = false := by
    cases hcs : ciStarts "GAGING".data (Y ++ ' ' :: w2) with
    | false => rw [Bool.false_and]
    | true =>
      rw [Bool.true_and]
      by_cases h6 : 6 ≤ Y.length
      · have hdrop : (Y ++ ' ' :: w2).drop 6 = Y.drop 6 ++ ' ' :: w2 :=
          List.drop_append_of_le_length h6
        rw [hdrop]
        have hbase : wsThenStation w2 = false := by
          have hall : ∀ w ∈ adminSuffixL, wsThenStation w = false := by decide
          exact hall w2 hw2
        exact wsThenStation_trailing w2 hbase (Y.drop 6)
      · rcases ciStarts_prefix_space "GAGING".data Y w2 hcs
          (by simp only [List.length_cons]; omega) with ⟨c, hc, hcc⟩
        have : ∀ c ∈ "GAGING".data, ciEq c ' ' = false := by decide
        rw [this c hc] at hcc
        cases hcc
  rw [h1, h2]
  rfl

theorem subAdminAux_trailing (w2 : List Char) (hw2 : w2 ∈ adminSuffixL) :
    ∀ (Y : List Char) (prev : Option Char),
    subAdminAux prev (Y ++ ' ' :: w2) = Y ++ [' '] := by
  intro Y
  induction Y with
  | nil =>
    intro prev
    rw [List.nil_append]
    unfold subAdminAux
    have hfalse := matchAdminEnd_trailing [] w2 hw2
    rw [List.nil_append] at hfalse
    simp only [hfalse, Bool.and_false, Bool.false_eq_true, if_false]
    have hsub : ∀ w ∈ adminSuffixL, subAdminAux (some ' ') w = [] := by decide
    rw [hsub w2 hw2]
    rfl
  | cons c Y' ih =>
    intro prev
    rw [List.cons_append]
    unfold subAdminAux
    have hfalse := matchAdminEnd_trailing (c :: Y') w2 hw2
    rw [List.cons_append] at hfalse
    simp only [hfalse, Bool.and_false, Bool.false_eq_true, if_false]
    rw [ih (some c)]
    rfl

/-- C9: the city string returned by the extractor never contains a comma:
the primary candidate stops before a comma, the fallback candidate sits
between two commas, and title-casing maps and replaces characters without
ever producing a comma. -/
theorem claim9_no_comma (name state_code : String) :
    ',' ∉ (parse_city_from_station_name name state_code).data := by
  intro hmem
  unfold parse_city_from_station_name parseCityCore at hmem
  by_cases h : name.data = []
  · rw [if_pos h] at hmem
    cases hmem
  · rw [if_neg h] at hmem
    cases hfp : findPrimary (collapseWs (pyStrip name.data)) with
    | some g2 =>
      simp only [hfp] at hmem
      by_cases hf : hasFeature
          (stripCandidate state_code.data (stateFullName state_code).data g2) = true
      · rw [if_pos hf] at hmem
        cases hmem
      · rw [if_neg hf] at hmem
        have hg2 : ∀ x ∈ g2, x ≠ ',' := findPrimaryAux_no_comma g2 _ none hfp
        have hcand : ∀ x ∈ stripCandidate state_code.data (stateFullName state_code).data g2,
            x ≠ ',' := fun x hx => hg2 x (mem_stripCandidate _ _ _ x hx)
        exact titleCaseCity_no_comma _ hcand ',' hmem rfl
    | none =>
      simp only [hfp] at hmem
      cases hfb : findFallback state_code.data (collapseWs (pyStrip name.data)) with
      | some before =>
        simp only [hfb] at hmem
        by_cases hc : (decide (pyStrip (lastSegment before) ≠ []) &&
            !hasFeature (pyStrip (lastSegment before))) = true
        · rw [if_pos hc] at hmem
          have hseg : ∀ x ∈ pyStrip (lastSegment before), x ≠ ',' :=
            fun x hx => mem_lastSegment x before (mem_pyStrip x _ hx)
          exact titleCaseCity_no_comma _ hseg ',' hmem rfl
        · rw [if_neg hc] at hmem
          cases hmem
      | none =>
        simp only [hfb] at hmem
        cases hmem

/-- C10: the administrative-suffix removal is end-anchored and single-shot:
when a candidate ends in two consecutive suffix words of the list CO, COUNTY,
RES, RESERVOIR, DAM, GATE, DIVERSION, GAGING STATION, only the last word is
removed (the substitution deletes exactly the final word, leaving the one
before it); in particular the extractor maps "X AT SMITHVILLE COUNTY CO"
with state code "TX" to "Smithville County", not "Smithville". -/
theorem claim10_one_suffix :
    (∀ (p w1 w2 : List Char), w1 ∈ adminSuffixL → w2 ∈ adminSuffixL →
      subAdmin (p ++ ' ' :: w1 ++ ' ' :: w2) = p ++ ' ' :: w1 ++ [' ']) ∧
    parse_city_from_station_name "X AT SMITHVILLE COUNTY CO" "TX" = "Smithville County" := by
  constructor
  · intro p w1 w2 _ hw2
    unfold subAdmin
    exact subAdminAux_trailing w2 hw2 (p ++ ' ' :: w1) none
  · decide

/-- C10 witness: the theorem instantiated at the SMITHVILLE COUNTY CO
candidate. -/
theorem claim10_one_suffix_witness :
    subAdmin ("SMITHVILLE".data ++ ' ' :: "COUNTY".data ++ ' ' :: "CO".data) =
      "SMITHVILLE".data ++ ' ' :: "COUNTY".data ++ [' '] :=
  claim10_one_suffix.1 "SMITHVILLE".data "COUNTY".data "CO".data (by decide) (by decide)

/-!  ## Helper lemmas: record assembly (claims C4, C5)  -/

theorem processRow_some (st : String) (cl : String → String) (r : RawRow)
    (rec : StationRecord) (h : processRow st cl r = some rec) :
    pyStripS (r.site_no.getD "") ≠ "" ∧ pyStripS (r.station_nm.getD "") ≠ "" ∧
    pyFloat (r.dec_lat_va.getD "") = some rec.lat ∧
    pyFloat (r.dec_long_va.getD "") = some rec.lon ∧
    rec.site_no ≠ "" ∧ rec.name ≠ "" := by
  simp only [processRow] at h
  cases hlat : pyFloat (r.dec_lat_va.getD "") with
  | none =>
    simp only [hlat] at h
    cases h
  | some latf =>
    cases hlon : pyFloat (r.dec_long_va.getD "") with
    | none =>
      simp only [hlat, hlon] at h
      cases h
    | some lonf =>
      simp only [hlat, hlon] at h
      split at h
      · cases h
      case isFalse hcond =>
        rw [Option.some_inj] at h
        subst h
        simp only [Bool.or_eq_true, decide_eq_true_eq, not_or] at hcond
        exact ⟨hcond.1, hcond.2, rfl, rfl, hcond.1, hcond.2⟩

theorem processStateRows_eq (st : String) (cl : String → String) :
    ∀ (rows : List RawRow) (m : List (String × StationRecord)),
    processStateRows st cl rows m = (rows.filterMap (processRow st cl)).foldl addRecord m := by
  intro rows
  induction rows with
  | nil => intro m; rfl
  | cons r rest ih =>
    intro m
    rw [show processStateRows st cl (r :: rest) m =
        processStateRows st cl rest (match processRow st cl r with
          | some rec => addRecord m rec
          | none => m) from rfl]
    rw [List.filterMap_cons]
    cases hr : processRow st cl r with
    | none => exact ih m
    | some rec =>
      rw [List.foldl_cons]
      exact ih (addRecord m rec)

theorem buildAll_eq (fetch : String → Option (List RawRow))
    (county : String → String → String) :
    buildAll fetch county = (recordStream fetch county).foldl addRecord [] := by
  unfold buildAll recordStream
  have key : ∀ (sts : List String) (m : List (String × StationRecord)),
      sts.foldl (fun m st =>
        match fetch st with
        | none => m
        | some rows => processStateRows st (county st) rows m) m =
      (sts.flatMap (fun st =>
        match fetch st with
        | none => []
        | some rows => rows.filterMap (processRow st (county st)))).foldl addRecord m := by
    intro sts
    induction sts with
    | nil => intro m; rfl
    | cons s rest ih =>
      intro m
      rw [List.foldl_cons, List.flatMap_cons, List.foldl_append]
      cases hf : fetch s with
      | none => exact ih m
      | some rows =>
        have h1 := ih (processStateRows s (county s) rows m)
        nth_rewrite 2 [processStateRows_eq] at h1
        exact h1
  exact key STATES []

theorem lookup_foldl_addRecord :
    ∀ (stream : List StationRecord) (m : List (String × StationRecord)) (k : String),
      (stream.foldl addRecord m).lookup k =
      (m.lookup k).or (stream.find? (fun r => r.site_no == k)) := by
  intro stream
  induction stream with
  | nil =>
    intro m k
    simp [List.find?]
  | cons rec rest ih =>
    intro m k
    rw [List.foldl_cons, ih, List.find?_cons]
    unfold addRecord
    by_cases hdup : (m.lookup rec.site_no).isSome
    · rw [if_pos hdup]
      cases hk : (rec.site_no == k) with
      | true =>
        rcases Option.isSome_iff_exists.mp hdup with ⟨v, hv⟩
        have hk2 : rec.site_no = k := eq_of_beq hk
        rw [hk2] at hv
        rw [hv]
        simp
      | false => simp
    · rw [if_neg hdup, List.lookup_append]
      cases hk : (rec.site_no == k) with
      | true =>
        have hk2 : rec.site_no = k := eq_of_beq hk
        subst hk2
        have hlk : List.lookup rec.site_no [(rec.site_no, rec)] = some rec := by
          simp [List.lookup]
        rw [hlk, Option.or_assoc]
        simp
      | false =>
        have hk2 : (k == rec.site_no) = false := by
          cases hbe : k == rec.site_no with
          | false => rfl
          | true =>
            have h3 : k = rec.site_no := eq_of_beq hbe
            subst h3
            simp at hk
        have hlk : List.lookup k [(rec.site_no, rec)] = none := by
          simp [List.lookup, hk2]
        rw [hlk, Option.or_assoc]
        simp

/-- C4 counterexample: the claim requires that both coordinates parse as
finite decimal numbers, but Python's float() accepts "inf" without a
ValueError, so a row with dec_lat_va = "inf" is not skipped: it produces a
record whose lat is non-finite. -/
theorem claim4_counterexample :
    (processRow "MO" (fun _ => "") infRow).map StationRecord.lat = some PyFloat.inf ∧
    (processRow "MO" (fun _ => "") infRow).map (fun r => r.lat.isFinite) = some false :=
  ⟨by decide, by decide⟩

/-- C4 amended: a StationRecord is constructed from a raw row only if the
trimmed site_no and trimmed station_nm are non-empty and both dec_lat_va and
dec_long_va parse via float() — whose value may be non-finite, e.g. for
"inf"; consequently every record in the final collection has non-empty
site_no and name and coordinates that parsed as floats. -/
theorem claim4_row_validation :
    (∀ (st : String) (cl : String → String) (r : RawRow) (rec : StationRecord),
      processRow st cl r = some rec →
      pyStripS (r.site_no.getD "") ≠ "" ∧ pyStripS (r.station_nm.getD "") ≠ "" ∧
      pyFloat (r.dec_lat_va.getD "") = some rec.lat ∧
      pyFloat (r.dec_long_va.getD "") = some rec.lon ∧
      rec.site_no ≠ "" ∧ rec.name ≠ "") ∧
    (∀ (fetch : String → Option (List RawRow)) (county : String → String → String)
      (k : String) (rec : StationRecord),
      (buildAll fetch county).lookup k = some rec →
      rec.site_no ≠ "" ∧ rec.name ≠ "") := by
  constructor
  · exact processRow_some
  · intro fetch county k rec h
    rw [buildAll_eq, lookup_foldl_addRecord] at h
    simp only [List.lookup, Option.none_or] at h
    have hmem : rec ∈ recordStream fetch county := List.mem_of_find?_eq_some h
    unfold recordStream at hmem
    rcases List.mem_flatMap.mp hmem with ⟨st, _, hst⟩
    cases hf : fetch st with
    | none => rw [hf] at hst; cases hst
    | some rows =>
      rw [hf] at hst
      rcases List.mem_filterMap.mp hst with ⟨r, _, hr⟩
      have := processRow_some st (county st) r rec hr
      exact ⟨this.2.2.2.2.1, this.2.2.2.2.2⟩

/-- C4 witness: a fully valid row produces a record, with the validation
conditions holding at this concrete input. -/
theorem claim4_row_validation_witness :
    pyStripS (c4wRow.site_no.getD "") ≠ "" ∧ pyStripS (c4wRow.station_nm.getD "") ≠ "" ∧
    pyFloat (c4wRow.dec_lat_va.getD "") = some c4wRec.lat ∧
    pyFloat (c4wRow.dec_long_va.getD "") = some c4wRec.lon ∧
    c4wRec.site_no ≠ "" ∧ c4wRec.name ≠ "" :=
  claim4_row_validation.1 "MO" (fun _ => "") c4wRow c4wRec (by rfl)

/-- C5: site_no is the key of the deduplication map with first-seen-wins:
inserting a record whose site_no is already present leaves the map unchanged,
and for every fetch outcome and key the final map holds exactly the first
record of the processing stream (state order, then row order) carrying that
site_no. -/
theorem claim5_first_seen_wins :
    (∀ (m : List (String × StationRecord)) (rec : StationRecord),
      (m.lookup rec.site_no).isSome → addRecord m rec = m) ∧
    (∀ (fetch : String → Option (List RawRow)) (county : String → String → String)
      (k : String),
      (buildAll fetch county).lookup k =
        (recordStream fetch county).find? (fun r => r.site_no == k)) := by
  constructor
  · intro m rec h
    unfold addRecord
    rw [if_pos h]
  · intro fetch county k
    rw [buildAll_eq, lookup_foldl_addRecord]
    simp [List.lookup]

/-- C5 witness: a duplicate insertion at a concrete map is discarded without
modifying the stored record. -/
theorem claim5_first_seen_wins_witness :
    addRecord [("1", sampleRec)] sampleRec = [("1", sampleRec)] :=
  claim5_first_seen_wins.1 [("1", sampleRec)] sampleRec (by decide)

/-!  ## Helper lemmas: the county lookup (claim C6)  -/

theorem except_bind_ok {ε α β : Type} (a : α) (f : α → Except ε β) :
    ((Except.ok a : Except ε α) >>= f) = f a := rfl

theorem except_bind_error {ε α β : Type} (e : ε) (f : α → Except ε β) :
    ((Except.error e : Except ε α) >>= f) = Except.error e := rfl

theorem mem_pyDictUpsert (m : List (Jv × Jv)) (k v : Jv) (kv : Jv × Jv)
    (h : kv ∈ pyDictUpsert m k v) : kv ∈ m ∨ kv = (k, v) := by
  unfold pyDictUpsert at h
  split at h
  · rcases List.mem_map.mp h with ⟨a, ha, hkv⟩
    by_cases hak : (a.1 == k) = true
    · rw [if_pos hak] at hkv
      right
      exact hkv.symm
    · rw [if_neg hak] at hkv
      left
      exact hkv ▸ ha
  · rcases List.mem_append.mp h with h | h
    · exact Or.inl h
    · right
      exact List.mem_singleton.mp h

theorem countyStep_ok (m : List (Jv × Jv)) (c : Jv) (m2 : List (Jv × Jv))
    (h : countyStep m c = .ok m2) :
    ∀ kv ∈ m2, kv ∈ m ∨
      (jvGetOpt c "value" = .ok kv.1 ∧ jvGetOpt c "name" = .ok kv.2 ∧
       jvTruthy kv.1 = true ∧ jvTruthy kv.2 = true) := by
  unfold countyStep at h
  cases hv : jvGetOpt c "value" with
  | error e =>
    rw [hv, except_bind_error] at h
    cases h
  | ok v =>
    rw [hv, except_bind_ok] at h
    cases hn : jvGetOpt c "name" with
    | error e =>
      rw [hn, except_bind_error] at h
      cases h
    | ok n =>
      rw [hn, except_bind_ok] at h
      split at h
      case isTrue ht =>
        have hm2 : pyDictUpsert m v n = m2 := by
          cases h
          rfl
        intro kv hkv
        rw [← hm2] at hkv
        rcases mem_pyDictUpsert m v n kv hkv with h1 | h1
        · exact Or.inl h1
        · right
          rw [Bool.and_eq_true] at ht
          rw [h1]
          exact ⟨rfl, rfl, ht.1, ht.2⟩
      case isFalse hf =>
        have hm2 : m = m2 := by
          cases h
          rfl
        intro kv hkv
        rw [← hm2] at hkv
        exact Or.inl hkv

theorem foldlM_countyStep_mem :
    ∀ (elems : List Jv) (acc m : List (Jv × Jv)),
    List.foldlM countyStep acc elems = .ok m →
    ∀ kv ∈ m, kv ∈ acc ∨ ∃ c ∈ elems,
      jvGetOpt c "value" = .ok kv.1 ∧ jvGetOpt c "name" = .ok kv.2 ∧
      jvTruthy kv.1 = true ∧ jvTruthy kv.2 = true := by
  intro elems
  induction elems with
  | nil =>
    intro acc m h kv hkv
    cases h
    exact Or.inl hkv
  | cons c rest ih =>
    intro acc m h kv hkv
    rw [List.foldlM_cons] at h
    cases hs : countyStep acc c with
    | error e =>
      rw [hs, except_bind_error] at h
      cases h
    | ok acc2 =>
      rw [hs, except_bind_ok] at h
      rcases ih acc2 m h kv hkv with hin | ⟨c2, hc2, hrest⟩
      · rcases countyStep_ok acc c acc2 hs kv hin with h1 | h1
        · exact Or.inl h1
        · exact Or.inr ⟨c, List.mem_cons_self c rest, h1⟩
      · exact Or.inr ⟨c2, List.mem_cons_of_mem _ hc2, hrest⟩

/-- C6: `build_county_map` never propagates an error: a fetch or decode
exception yields the empty mapping, an exception anywhere in the body (a
non-dict response, a non-iterable `codes`, a non-dict element) also yields
the empty mapping, and on success the result is the comprehension's mapping,
each of whose pairs is the truthy (value, name) of some element of the
iterated `codes`. -/
theorem claim6_county_best_effort :
    (∀ e : PyErr, build_county_map (.error e) = []) ∧
    (∀ (j : Jv) (e : PyErr), countyPipeline j = .error e →
      build_county_map (.ok j) = []) ∧
    (∀ (j : Jv) (m : List (Jv × Jv)), countyPipeline j = .ok m →
      build_county_map (.ok j) = m ∧
      ∀ kv ∈ m, ∃ codes elems c, jvGetDefault j "codes" (.arr []) = .ok codes ∧
        jvIter codes = .ok elems ∧ c ∈ elems ∧
        jvGetOpt c "value" = .ok kv.1 ∧ jvGetOpt c "name" = .ok kv.2 ∧
        jvTruthy kv.1 = true ∧ jvTruthy kv.2 = true) := by
  refine ⟨fun e => rfl, ?_, ?_⟩
  · intro j e h
    unfold build_county_map
    rw [except_bind_ok, h]
  · intro j m h
    constructor
    · unfold build_county_map
      rw [except_bind_ok, h]
    · unfold countyPipeline at h
      cases hc : jvGetDefault j "codes" (.arr []) with
      | error e =>
        rw [hc, except_bind_error] at h
        cases h
      | ok codes =>
        rw [hc, except_bind_ok] at h
        cases hi : jvIter codes with
        | error e =>
          rw [hi, except_bind_error] at h
          cases h
        | ok elems =>
          rw [hi, except_bind_ok] at h
          intro kv hkv
          unfold countyPairs at h
          rcases foldlM_countyStep_mem elems [] m h kv hkv with h0 | ⟨c, hcm, hrest⟩
          · cases h0
          · exact ⟨codes, elems, c, rfl, hi, hcm, hrest.1, hrest.2.1, hrest.2.2.1, hrest.2.2.2⟩

/-- C6 witness: a concrete error and a concrete well-shaped response,
instantiating the error case and the success case of the theorem. -/
theorem claim6_county_best_effort_witness :
    build_county_map (.ok (Jv.obj [("codes",
      Jv.arr [Jv.obj [("value", Jv.str "510"), ("name", Jv.str "St. Louis City")]])])) =
      [(Jv.str "510", Jv.str "St. Louis City")] ∧
    build_county_map (.ok (Jv.str "oops")) = [] :=
  ⟨(claim6_county_best_effort.2.2 (Jv.obj [("codes",
      Jv.arr [Jv.obj [("value", Jv.str "510"), ("name", Jv.str "St. Louis City")]])])
      [(Jv.str "510", Jv.str "St. Louis City")] (by rfl)).1,
   claim6_county_best_effort.2.1 (Jv.str "oops") PyErr.attributeError (by rfl)⟩

/-!  ## Helper lemmas: sorting (claim C7)  -/

theorem strLt_asymm : ∀ (a b : List Char), strLt a b = true → strLt b a = false := by
  intro a
  induction a with
  | nil =>
    intro b h
    cases b with
    | nil => cases h
    | cons y ys => rfl
  | cons x xs ih =>
    intro b h
    cases b with
    | nil => cases h
    | cons y ys =>
      unfold strLt at h ⊢
      by_cases h1 : x.toNat < y.toNat
      · rw [if_neg (by omega), if_pos h1]
      · by_cases h2 : y.toNat < x.toNat
        · rw [if_neg h1, if_pos h2] at h
          cases h
        · rw [if_neg h1, if_neg h2] at h
          rw [if_neg h2, if_neg h1]
          exact ih ys h

theorem strLt_trans : ∀ (a b c : List Char),
    strLt a b = true → strLt b c = true → strLt a c = true := by
  intro a
  induction a with
  | nil =>
    intro b c hab hbc
    cases b with
    | nil => cases hab
    | cons y ys =>
      cases c with
      | nil => cases hbc
      | cons z zs => rfl
  | cons x xs ih =>
    intro b c hab hbc
    cases b with
    | nil => cases hab
    | cons y ys =>
      cases c with
      | nil => cases hbc
      | cons z zs =>
        unfold strLt at hab hbc ⊢
        by_cases h1 : x.toNat < y.toNat
        · by_cases h2 : y.toNat < z.toNat
          · rw [if_pos (by omega)]
          · rw [if_neg h2] at hbc
            by_cases h3 : z.toNat < y.toNat
            · rw [if_pos h3] at hbc
              cases hbc
            · rw [if_pos (by omega)]
        · rw [if_neg h1] at hab
          by_cases h2 : y.toNat < x.toNat
          · rw [if_pos h2] at hab
            cases hab
          · rw [if_neg h2] at hab
            by_cases h3 : y.toNat < z.toNat
            · rw [if_pos (by omega)]
            · rw [if_neg h3] at hbc
              by_cases h4 : z.toNat < y.toNat
              · rw [if_pos h4] at hbc
                cases hbc
              · rw [if_neg h4] at hbc
                rw [if_neg (by omega), if_neg (by omega)]
                exact ih ys zs hab hbc

theorem strLt_eq_of_not : ∀ (a b : List Char),
    strLt a b = false → strLt b a = false → a = b := by
  intro a
  induction a with
  | nil =>
    intro b h1 _
    cases b with
    | nil => rfl
    | cons y ys => cases h1
  | cons x xs ih =>
    intro b h1 h2
    cases b with
    | nil => cases h2
    | cons y ys =>
      unfold strLt at h1 h2
      by_cases hx : x.toNat < y.toNat
      · rw [if_pos hx] at h1
        cases h1
      · by_cases hy : y.toNat < x.toNat
        · rw [if_pos hy] at h2
          cases h2
        · rw [if_neg hx, if_neg hy] at h1
          rw [if_neg hy, if_neg hx] at h2
          have hxy : x = y := char_eq_of_toNat x y (by omega)
          rw [hxy, ih ys h1 h2]

theorem strLt_false_trans (a b c : List Char) (h1 : strLt a b = false)
    (h2 : strLt b c = false) : strLt a c = false := by
  cases hac : strLt a c with
  | false => rfl
  | true =>
    cases hba : strLt b a with
    | true =>
      rw [strLt_trans b a c hba hac] at h2
      cases h2
    | false =>
      rw [strLt_eq_of_not a b h1 hba] at hac
      rw [hac] at h2
      cases h2

theorem bool_ne_true {b : Bool} (h : b = false) : ¬ b = true := by
  rw [h]
  exact Bool.false_ne_true

theorem bool_eq_false {b : Bool} (h : ¬ b = true) : b = false := by
  cases b
  · rfl
  · exact absurd rfl h

theorem recKeyLe_total (a b : StationRecord) : recKeyLe a b = true ∨ recKeyLe b a = true := by
  unfold recKeyLe
  by_cases hab : strLt a.state.data b.state.data = true
  · left
    rw [if_pos hab]
  · by_cases hba : strLt b.state.data a.state.data = true
    · right
      rw [if_pos hba]
    · by_cases hn : strLt b.name.data a.name.data = true
      · right
        rw [if_neg hba, if_neg hab, strLt_asymm _ _ hn]
        rfl
      · left
        rw [if_neg hab, if_neg hba, bool_eq_false hn]
        rfl

theorem recKeyLe_trans (a b c : StationRecord) (h1 : recKeyLe a b = true)
    (h2 : recKeyLe b c = true) : recKeyLe a c = true := by
  unfold recKeyLe at h1 h2 ⊢
  by_cases hab : strLt a.state.data b.state.data = true
  · by_cases hbc : strLt b.state.data c.state.data = true
    · rw [if_pos (strLt_trans _ _ _ hab hbc)]
    · rw [if_neg hbc] at h2
      by_cases hcb : strLt c.state.data b.state.data = true
      · rw [if_pos hcb] at h2
        cases h2
      · have hbceq : b.state.data = c.state.data :=
          strLt_eq_of_not _ _ (bool_eq_false hbc) (bool_eq_false hcb)
        rw [if_pos (show strLt a.state.data c.state.data = true from hbceq ▸ hab)]
  · rw [if_neg hab] at h1
    by_cases hba : strLt b.state.data a.state.data = true
    · rw [if_pos hba] at h1
      cases h1
    · rw [if_neg hba] at h1
      have habeq : a.state.data = b.state.data :=
        strLt_eq_of_not _ _ (bool_eq_false hab) (bool_eq_false hba)
      by_cases hbc : strLt b.state.data c.state.data = true
      · rw [if_pos (show strLt a.state.data c.state.data = true from habeq ▸ hbc)]
      · rw [if_neg hbc] at h2
        by_cases hcb : strLt c.state.data b.state.data = true
        · rw [if_pos hcb] at h2
          cases h2
        · rw [if_neg hcb] at h2
          have hbceq : b.state.data = c.state.data :=
            strLt_eq_of_not _ _ (bool_eq_false hbc) (bool_eq_false hcb)
          rw [Bool.not_eq_true'] at h1 h2
          have hac : strLt a.state.data c.state.data = false := by
            rw [habeq]
            exact bool_eq_false hbc
          have hca : strLt c.state.data a.state.data = false := by
            rw [habeq]
            exact bool_eq_false hcb
          rw [if_neg (bool_ne_true hac), if_neg (bool_ne_true hca), Bool.not_eq_true']
          exact strLt_false_trans _ _ _ h2 h1

theorem insertRec_perm (x : StationRecord) :
    ∀ l : List StationRecord, (insertRec x l).Perm (x :: l) := by
  intro l
  induction l with
  | nil => exact List.Perm.refl _
  | cons y ys ih =>
    unfold insertRec
    split
    · exact (List.Perm.cons y ih).trans (List.Perm.swap x y ys)
    · exact List.Perm.refl _

theorem sortRecords_perm (l : List StationRecord) : (sortRecords l).Perm l := by
  unfold sortRecords
  have key : ∀ (l acc : List StationRecord),
      (l.foldl (fun acc x => insertRec x acc) acc).Perm (acc ++ l) := by
    intro l
    induction l with
    | nil =>
      intro acc
      rw [List.append_nil]
      exact List.Perm.refl _
    | cons x rest ih =>
      intro acc
      rw [List.foldl_cons]
      exact ((ih (insertRec x acc)).trans
        (((insertRec_perm x acc).append_right rest).trans List.perm_middle.symm))
  have h := key l []
  simpa using h

theorem insertRec_sorted (x : StationRecord) : ∀ (l : List StationRecord),
    List.Pairwise (fun a b => recKeyLe a b = true) l →
    List.Pairwise (fun a b => recKeyLe a b = true) (insertRec x l) := by
  intro l
  induction l with
  | nil =>
    intro _
    simp [insertRec]
  | cons y ys ih =>
    intro hs
    rw [List.pairwise_cons] at hs
    unfold insertRec
    split
    case isTrue hyx =>
      rw [List.pairwise_cons]
      constructor
      · intro z hz
        have hmem := (insertRec_perm x ys).mem_iff.mp hz
        rcases List.mem_cons.mp hmem with hz1 | hz1
        · exact hz1 ▸ hyx
        · exact hs.1 z hz1
      · exact ih hs.2
    case isFalse hyx =>
      rw [List.pairwise_cons]
      have hxy : recKeyLe x y = true := by
        rcases recKeyLe_total x y with h | h
        · exact h
        · exact absurd h hyx
      constructor
      · intro z hz
        rcases List.mem_cons.mp hz with hz1 | hz1
        · exact hz1 ▸ hxy
        · exact recKeyLe_trans x y z hxy (hs.1 z hz1)
      · rw [List.pairwise_cons]
        exact ⟨hs.1, hs.2⟩

theorem sortRecords_sorted (l : List StationRecord) :
    List.Pairwise (fun a b => recKeyLe a b = true) (sortRecords l) := by
  unfold sortRecords
  have key : ∀ (l acc : List StationRecord),
      List.Pairwise (fun a b => recKeyLe a b = true) acc →
      List.Pairwise (fun a b => recKeyLe a b = true)
        (l.foldl (fun acc x => insertRec x acc) acc) := by
    intro l
    induction l with
    | nil =>
      intro acc h
      exact h
    | cons x rest ih =>
      intro acc h
      rw [List.foldl_cons]
      exact ih _ (insertRec_sorted x acc h)
  exact key l [] List.Pairwise.nil

/-!  ## Helper lemmas: whitespace stripping (claim C7)  -/

theorem runS_append (st : SState) (a b : List Char) :
    runS st (a ++ b) = runS (runS st a) b := by
  unfold runS
  exact List.foldl_append _ _ _ _

theorem runS_cons (st : SState) (c : Char) (rest : List Char) :
    runS st (c :: rest) = runS (sstep st c) rest := rfl

theorem stripWsAux_cons (st : SState) (c : Char) (rest : List Char) :
    stripWsAux st (c :: rest) =
      if skeep st c = true then c :: stripWsAux (sstep st c) rest
      else stripWsAux (sstep st c) rest := rfl

theorem stripWsAux_keep (st : SState) (c : Char) (rest : List Char)
    (hk : skeep st c = true) :
    stripWsAux st (c :: rest) = c :: stripWsAux (sstep st c) rest := by
  rw [stripWsAux_cons, if_pos hk]

theorem stripWsAux_append (st : SState) : ∀ (a b : List Char),
    stripWsAux st (a ++ b) = stripWsAux st a ++ stripWsAux (runS st a) b := by
  intro a
  induction a generalizing st with
  | nil => intro b; rfl
  | cons c rest ih =>
    intro b
    rw [List.cons_append, stripWsAux_cons, stripWsAux_cons, runS_cons]
    by_cases h : skeep st c = true
    · rw [if_pos h, if_pos h, ih (sstep st c) b, List.cons_append]
    · rw [if_neg h, if_neg h, ih (sstep st c) b]

theorem sstep_out_eq (c : Char) :
    sstep SState.out c = if c = '"' then SState.instr else SState.out := rfl

theorem sstep_instr_eq (c : Char) :
    sstep SState.instr c =
      if c = '\\' then SState.esc else if c = '"' then SState.out else SState.instr := rfl

theorem sstep_instr_hexDigit (n : Nat) : sstep SState.instr (hexDigit n) = SState.instr := by
  rcases n with _|_|_|_|_|_|_|_|_|_|_|_|_|_|_|_|n <;> rfl

theorem jsonEscapeChar_instr (c : Char) :
    runS .instr (jsonEscapeChar c) = .instr ∧
    stripWsAux .instr (jsonEscapeChar c) = jsonEscapeChar c := by
  by_cases h1 : c = '"'
  · subst h1; exact ⟨rfl, rfl⟩
  by_cases h2 : c = '\\'
  · subst h2; exact ⟨rfl, rfl⟩
  by_cases h3 : c = '\n'
  · subst h3; exact ⟨rfl, rfl⟩
  by_cases h4 : c = '\t'
  · subst h4; exact ⟨rfl, rfl⟩
  by_cases h5 : c = '\r'
  · subst h5; exact ⟨rfl, rfl⟩
  by_cases h6 : c = '\x08'
  · subst h6; exact ⟨rfl, rfl⟩
  by_cases h7 : c = '\x0c'
  · subst h7; exact ⟨rfl, rfl⟩
  by_cases h8 : c.toNat < 32
  · have he : jsonEscapeChar c =
        ['\\', 'u', '0', '0', hexDigit (c.toNat / 16), hexDigit (c.toNat % 16)] := by
      simp [jsonEscapeChar, h1, h2, h3, h4, h5, h6, h7, h8]
    rw [he]
    constructor
    · show runS .instr _ = .instr
      unfold runS
      simp only [List.foldl_cons, List.foldl_nil]
      rw [show sstep SState.instr '\\' = SState.esc from rfl,
          show sstep SState.esc 'u' = SState.instr from rfl,
          show sstep SState.instr '0' = SState.instr from rfl,
          show sstep SState.instr '0' = SState.instr from rfl,
          sstep_instr_hexDigit, sstep_instr_hexDigit]
    · rw [stripWsAux_keep SState.instr _ _ rfl]
      rw [show sstep SState.instr '\\' = SState.esc from rfl]
      rw [stripWsAux_keep SState.esc _ _ rfl]
      rw [show sstep SState.esc 'u' = SState.instr from rfl]
      rw [stripWsAux_keep SState.instr _ _ rfl]
      rw [show sstep SState.instr '0' = SState.instr from rfl]
      rw [stripWsAux_keep SState.instr _ _ rfl]
      rw [show sstep SState.instr '0' = SState.instr from rfl]
      rw [stripWsAux_keep SState.instr _ _ rfl]
      rw [sstep_instr_hexDigit]
      rw [stripWsAux_keep SState.instr _ _ rfl]
      rfl
  · have he : jsonEscapeChar c = [c] := by
      simp [jsonEscapeChar, h1, h2, h3, h4, h5, h6, h7, h8]
    rw [he]
    have hstep : sstep SState.instr c = SState.instr := by
      rw [sstep_instr_eq, if_neg h2, if_neg h1]
    constructor
    · show runS .instr [c] = .instr
      unfold runS
      rw [List.foldl_cons, hstep]
      rfl
    · rw [stripWsAux_keep SState.instr _ _ rfl]
      rfl

theorem escFlatten_instr (s : List Char) :
    runS .instr ((s.map jsonEscapeChar).flatten) = .instr ∧
    stripWsAux .instr ((s.map jsonEscapeChar).flatten) = (s.map jsonEscapeChar).flatten := by
  induction s with
  | nil => exact ⟨rfl, rfl⟩
  | cons c rest ih =>
    simp only [List.map_cons, List.flatten_cons]
    rw [runS_append, stripWsAux_append, (jsonEscapeChar_instr c).1,
        (jsonEscapeChar_instr c).2, ih.1, ih.2]
    exact ⟨rfl, rfl⟩

theorem jsonStringLit_strip (s : String) :
    runS .out (jsonStringLit s) = .out ∧
    stripWsAux .out (jsonStringLit s) = jsonStringLit s := by
  unfold jsonStringLit
  have hesc := escFlatten_instr s.data
  constructor
  · show runS .out ('"' :: ((s.data.map jsonEscapeChar).flatten ++ ['"'])) = .out
    unfold runS
    rw [List.foldl_cons, show sstep SState.out '"' = SState.instr from rfl]
    rw [show List.foldl sstep SState.instr ((s.data.map jsonEscapeChar).flatten ++ ['"']) =
        runS SState.instr ((s.data.map jsonEscapeChar).flatten ++ ['"']) from rfl]
    rw [runS_append, hesc.1]
    rfl
  · rw [stripWsAux_keep SState.out '"' _ rfl]
    rw [show sstep SState.out '"' = SState.instr from rfl]
    rw [stripWsAux_append, hesc.1, hesc.2]
    rfl

theorem strip_out_nows : ∀ (l : List Char),
    (∀ c ∈ l, isPySpace c = false ∧ c ≠ '"') →
    runS .out l = .out ∧ stripWsAux .out l = l := by
  intro l
  induction l with
  | nil => intro _; exact ⟨rfl, rfl⟩
  | cons c rest ih =>
    intro h
    have hc := h c (List.mem_cons_self c rest)
    have hstep : sstep SState.out c = SState.out := by
      rw [sstep_out_eq, if_neg hc.2]
    have hkeep : skeep SState.out c = true := by
      rw [show skeep SState.out c = !isPySpace c from rfl, hc.1]
      rfl
    have ihr := ih (fun x hx => h x (List.mem_cons_of_mem _ hx))
    constructor
    · show runS .out (c :: rest) = .out
      unfold runS
      rw [List.foldl_cons, hstep]
      exact ihr.1
    · rw [stripWsAux_keep _ _ _ hkeep, hstep, ihr.2]

theorem recFields_value_ok (shw : PyFloat → String) (hs : numOk shw) (r : StationRecord) :
    ∀ kv ∈ recFields shw r, runS .out kv.2 = .out ∧ stripWsAux .out kv.2 = kv.2 := by
  intro kv hkv
  unfold recFields at hkv
  simp only [List.mem_cons, List.not_mem_nil, or_false] at hkv
  rcases hkv with h | h | h | h | h | h | h <;> subst h
  · exact jsonStringLit_strip _
  · exact jsonStringLit_strip _
  · exact jsonStringLit_strip _
  · exact jsonStringLit_strip _
  · exact jsonStringLit_strip _
  · exact strip_out_nows _ (hs r.lat)
  · exact strip_out_nows _ (hs r.lon)

theorem field_strip (k : String) (v : List Char)
    (hv : runS .out v = .out ∧ stripWsAux .out v = v) :
    runS .out ("    ".data ++ jsonStringLit k ++ ": ".data ++ v) = .out ∧
    stripWsAux .out ("    ".data ++ jsonStringLit k ++ ": ".data ++ v) =
      jsonStringLit k ++ ':' :: v := by
  have hlit := jsonStringLit_strip k
  constructor
  · rw [runS_append, runS_append, runS_append,
        show runS .out "    ".data = .out from rfl, hlit.1,
        show runS .out ": ".data = .out from rfl, hv.1]
  · rw [stripWsAux_append, stripWsAux_append, stripWsAux_append,
        runS_append, runS_append, runS_append,
        show runS .out "    ".data = .out from rfl, hlit.1,
        show runS .out ": ".data = .out from rfl,
        show stripWsAux .out "    ".data = [] from rfl, hlit.2,
        show stripWsAux .out ": ".data = [':'] from rfl, hv.2]
    simp

theorem joinSep_strip {α : Type} (sepP sepM : List Char)
    (hsepS : runS .out sepP = .out) (hsepW : stripWsAux .out sepP = sepM)
    (f g : α → List Char) :
    ∀ (items : List α),
    (∀ a ∈ items, runS .out (f a) = .out ∧ stripWsAux .out (f a) = g a) →
    runS .out (joinSep sepP (items.map f)) = .out ∧
    stripWsAux .out (joinSep sepP (items.map f)) = joinSep sepM (items.map g) := by
  intro items
  induction items with
  | nil => intro _; exact ⟨rfl, rfl⟩
  | cons x rest ih =>
    intro hall
    cases rest with
    | nil =>
      simp only [List.map_cons, List.map_nil]
      exact ⟨(hall x (List.mem_cons_self x [])).1, (hall x (List.mem_cons_self x [])).2⟩
    | cons y rest2 =>
      have ihh := ih (fun a ha => hall a (List.mem_cons_of_mem _ ha))
      have hx := hall x (List.mem_cons_self x (y :: rest2))
      simp only [List.map_cons] at ihh ⊢
      constructor
      · show runS .out (f x ++ sepP ++ joinSep sepP (f y :: rest2.map f)) = .out
        rw [runS_append, runS_append, hx.1, hsepS]
        exact ihh.1
      · show stripWsAux .out (f x ++ sepP ++ joinSep sepP (f y :: rest2.map f)) =
          g x ++ sepM ++ joinSep sepM (g y :: rest2.map g)
        rw [stripWsAux_append, stripWsAux_append, runS_append, hx.1, hsepS, hx.2, hsepW]
        rw [ihh.2]

theorem obj_strip (shw : PyFloat → String) (hs : numOk shw) (r : StationRecord) :
    runS .out (prettyObj shw r) = .out ∧
    stripWsAux .out (prettyObj shw r) = minObj shw r := by
  have hfields : ∀ kv ∈ recFields shw r,
      runS .out ("    ".data ++ jsonStringLit kv.1 ++ ": ".data ++ kv.2) = .out ∧
      stripWsAux .out ("    ".data ++ jsonStringLit kv.1 ++ ": ".data ++ kv.2) =
        jsonStringLit kv.1 ++ ':' :: kv.2 :=
    fun kv hkv => field_strip kv.1 kv.2 (recFields_value_ok shw hs r kv hkv)
  have hj := joinSep_strip ",\n".data [','] rfl rfl
    (fun kv => "    ".data ++ jsonStringLit kv.1 ++ ": ".data ++ kv.2)
    (fun kv => jsonStringLit kv.1 ++ ':' :: kv.2) (recFields shw r) hfields
  unfold prettyObj minObj
  constructor
  · rw [runS_append, runS_append, show runS .out "  \x7b\n".data = .out from rfl, hj.1,
        show runS .out "\n  \x7d".data = .out from rfl]
  · rw [stripWsAux_append, stripWsAux_append, runS_append,
        show runS .out "  \x7b\n".data = .out from rfl, hj.1,
        show stripWsAux .out "  \x7b\n".data = ['\x7b'] from rfl, hj.2,
        show stripWsAux .out "\n  \x7d".data = ['\x7d'] from rfl]
    simp

theorem prettyRecords_strip (shw : PyFloat → String) (hs : numOk shw)
    (rs : List StationRecord) :
    stripWsAux .out (prettyRecords shw rs) = minRecords shw rs := by
  cases rs with
  | nil => rfl
  | cons r rest =>
    have hj := joinSep_strip ",\n".data [','] rfl rfl (prettyObj shw) (minObj shw)
      (r :: rest) (fun a _ => obj_strip shw hs a)
    show stripWsAux .out ("[\n".data ++ joinSep ",\n".data ((r :: rest).map (prettyObj shw)) ++
        "\n]".data) = '[' :: (joinSep [','] ((r :: rest).map (minObj shw)) ++ [']'])
    rw [stripWsAux_append, stripWsAux_append, runS_append,
        show runS .out "[\n".data = .out from rfl, hj.1,
        show stripWsAux .out "[\n".data = ['['] from rfl, hj.2,
        show stripWsAux .out "\n]".data = [']'] from rfl]
    simp

/-- C7: the serialized output sequence is the deduplicated collection sorted
ascending lexicographically by (state, name); the indented file and the
minified file are printings of that same sequence with identical field
values (the float rendering shared by both is abstracted as `shw`), and
removing the whitespace outside string literals from the indented file gives
exactly the minified file. -/
theorem claim7_serializer (shw : PyFloat → String) (hs : numOk shw)
    (m : List (String × StationRecord)) :
    List.Pairwise (fun a b => recKeyLe a b = true) (outputSeq m) ∧
    (outputSeq m).Perm (m.map Prod.snd) ∧
    prettyFile shw m = prettyRecords shw (outputSeq m) ∧
    minFile shw m = minRecords shw (outputSeq m) ∧
    stripJsonWs (prettyFile shw m) = minFile shw m := by
  refine ⟨sortRecords_sorted _, sortRecords_perm _, rfl, rfl, ?_⟩
  unfold stripJsonWs prettyFile minFile
  exact prettyRecords_strip shw hs (outputSeq m)

theorem showNumZero_ok : numOk showNumZero := by
  intro x c hc
  have hc0 : c = '0' := by
    simpa [showNumZero] using hc
  subst hc0
  exact ⟨rfl, by decide⟩

/-- C7 witness: the theorem instantiated at a concrete one-record map and a
concrete number formatter. -/
theorem claim7_serializer_witness :
    List.Pairwise (fun a b => recKeyLe a b = true) (outputSeq [("1", sampleRec)]) ∧
    (outputSeq [("1", sampleRec)]).Perm ([("1", sampleRec)].map Prod.snd) ∧
    prettyFile showNumZero [("1", sampleRec)] =
      prettyRecords showNumZero (outputSeq [("1", sampleRec)]) ∧
    minFile showNumZero [("1", sampleRec)] =
      minRecords showNumZero (outputSeq [("1", sampleRec)]) ∧
    stripJsonWs (prettyFile showNumZero [("1", sampleRec)]) =
      minFile showNumZero [("1", sampleRec)] :=
  claim7_serializer showNumZero showNumZero_ok [("1", sampleRec)]
